import Mathlib

/-!
# NFSU2SaveE: a shallow embedding of `main.cpp`

The save editor reads a whole file into a byte buffer, checks a six byte
header, reads and overwrites a few fields at fixed offsets, and writes the
buffer back when the `NFSU2SaveFile` object is destroyed.

Modelling conventions

* A byte is a `Fin 256`; the buffer is a `List Byte`.
* C++ indexes the buffer without any check.  Here every access is checked
  against the length of the buffer and an access outside it yields
  `Error.out_of_bounds` (undefined behaviour in the source).
* Objects handed to `memcmp` (`long`, `std::streampos`, `int32_t`) are
  represented by their little-endian bytes, the stream offset being the first
  member of `std::streampos`; this is what the source comment
  "20CM at 0th index and filesize at 4th index" relies on.
* Standard input is the list of outcomes of `std::stol` on the successive
  lines: `some n` when it returns the `long` value `n`, `none` when it throws.
-/

namespace NFSU2SaveE

/-- One `char` of the buffer, seen as an unsigned byte. -/
abbrev Byte := Fin 256

/-- Ways in which a run can fail to produce a value.  The first two are the
`std::runtime_error`s thrown by the constructor; `out_of_bounds` is an access
outside the buffer, `bad_alloc` an allocation of an impossible size, and
`input_exhausted` the prompt loop that never ends once standard input is at
its end. -/
inductive Error where
  | cannot_be_read
  | not_a_valid_save_file
  | out_of_bounds
  | bad_alloc
  | input_exhausted
  deriving DecidableEq, Repr

/-- Equality of results can be decided when it can on values and on errors. -/
instance instDecidableEqExcept {ε α : Type} [DecidableEq ε] [DecidableEq α] :
    DecidableEq (Except ε α)
  | .ok a, .ok b =>
    if h : a = b then isTrue (by rw [h]) else isFalse (fun h2 => h (Except.ok.inj h2))
  | .error a, .error b =>
    if h : a = b then isTrue (by rw [h]) else isFalse (fun h2 => h (Except.error.inj h2))
  | .ok _, .error _ => isFalse (fun h => Except.noConfusion h)
  | .error _, .ok _ => isFalse (fun h => Except.noConfusion h)

/-! ## Bytes and objects -/

/-- The first `n` bytes of the little-endian object representation of the
unsigned value `x`. -/
def leBytes (n : Nat) (x : Nat) : List Byte :=
  (List.range n).map fun k => Fin.ofNat (x / 256 ^ k)

/-- The unsigned value whose little-endian representation is `bs`. -/
def leValue : List Byte → Nat
  | [] => 0
  | b :: bs => b.val + 256 * leValue bs

/-- Conversion of an integer to `int32_t`: reduction modulo `2^32` into
`[-2^31, 2^31)`.  It is the identity on values that already fit. -/
def toInt32 (n : Int) : Int :=
  let u := n % 2 ^ 32
  if u < 2 ^ 31 then u else u - 2 ^ 32

/-- Object representation of an `int32_t`: four bytes, two's complement,
little-endian. -/
def int32_bytes (v : Int) : List Byte :=
  leBytes 4 (v % 2 ^ 32).toNat

/-- The `int32_t` whose object representation is `bs`. -/
def int32_of_bytes (bs : List Byte) : Int :=
  toInt32 (Int.ofNat (leValue bs))

/-! ## Checked access to the buffer -/

/-- Assignment `buffer[i] = b`. -/
def writeByte (buffer : List Byte) (i : Nat) (b : Byte) : Except Error (List Byte) :=
  if i < buffer.length then .ok (buffer.set i b) else .error .out_of_bounds

/-- Read of the `n` bytes `buffer[off], .., buffer[off + n - 1]`. -/
def readBytes (buffer : List Byte) (off n : Nat) : Except Error (List Byte) :=
  if off + n ≤ buffer.length then .ok ((buffer.drop off).take n) else .error .out_of_bounds

/-- Store of the bytes `bs` at `buffer[off], ..`. -/
def writeBytes (buffer : List Byte) (off : Nat) (bs : List Byte) : Except Error (List Byte) :=
  if off + bs.length ≤ buffer.length then
    .ok (buffer.take off ++ bs ++ buffer.drop (off + bs.length))
  else .error .out_of_bounds

/-- Lexicographic comparison of two byte sequences as unsigned bytes: the sign
that `memcmp` returns. -/
def compareBytes : List Byte → List Byte → Int
  | a :: as, b :: bs =>
    if a.val < b.val then -1 else if b.val < a.val then 1 else compareBytes as bs
  | _, _ => 0

/-- The call `memcmp(&buffer[off], &obj, n)` where `obj` is given by its object
representation. -/
def memcmp (buffer : List Byte) (off : Nat) (obj : List Byte) (n : Nat) : Except Error Int := do
  let xs ← readBytes buffer off n
  pure (compareBytes xs (obj.take n))

/-- The bytes of the C string starting at the head of the list: everything
before the first zero byte.  Running off the end of the buffer is an access
outside it. -/
def cstring : List Byte → Except Error (List Byte)
  | [] => .error .out_of_bounds
  | b :: rest => if b = 0 then .ok [] else (cstring rest).map (b :: ·)

/-! ## Files -/

/-- The files the program can see: `content p = none` when `p` cannot be
opened for reading, `writable p` when `p` can be opened for writing. -/
structure FileSystem where
  content : String → Option (List Byte)
  writable : String → Bool

/-- Result of writing `data` to a freshly truncated `path`. -/
def FileSystem.write (fs : FileSystem) (path : String) (data : List Byte) : FileSystem :=
  { fs with content := fun p => if p = path then some data else fs.content p }

/-- The function `file_exists`: `std::ifstream(filename).good()`. -/
def file_exists (fs : FileSystem) (filename : String) : Bool :=
  (fs.content filename).isSome

/-- The function `backup`: copy of all bytes of `in_filename` to
`backup_filename`; nothing is written when the output stream is not good. -/
def backup (fs : FileSystem) (in_filename backup_filename : String) : Except Error FileSystem :=
  match fs.content in_filename with
  | none => .error .bad_alloc
  | some data => .ok (if fs.writable backup_filename then fs.write backup_filename data else fs)

/-! ## The class `NFSU2SaveFile` -/

/-- The data members of the class. -/
structure NFSU2SaveFile where
  filename : String
  size : Nat
  buffer : List Byte
  deriving DecidableEq, Repr

/-- Enumeration `CAR_PERFORMACE`. -/
inductive CAR_PERFORMACE where
  | NILL_OUT
  | MAX_OUT
  deriving DecidableEq, Repr

/-- The cast `(char)car_performance`: the enumerators are numbered from 0. -/
def CAR_PERFORMACE.toByte : CAR_PERFORMACE → Byte
  | .NILL_OUT => 0
  | .MAX_OUT => 1

namespace NFSU2SaveFile

/-- Constant `HEADER_MAGIC_ID` of the constructor: "20CM" read as a
little-endian number. -/
def HEADER_MAGIC_ID : Nat := 0x4D433032

/-- Constant `START_INDEX`. -/
def START_INDEX : Nat := 0x5AEC

/-- Constant `SIZE_CAR_SLOT`. -/
def SIZE_CAR_SLOT : Nat := 0x7F2

/-- Constant `NUM_CAR_SLOTS`. -/
def NUM_CAR_SLOTS : Nat := 5

/-- Constant `ZERO` of `car_slots_used`. -/
def ZERO : Nat := 0

/-- Constant `TOTAL_PARTS`. -/
def TOTAL_PARTS : Nat := 0x44

/-- The constructor `NFSU2SaveFile(std::string filename)`: reads the whole
file, then compares the first four bytes with `HEADER_MAGIC_ID` and, only when
they agree, the next two with the first two bytes of `size`. -/
def load (fs : FileSystem) (filename : String) : Except Error NFSU2SaveFile :=
  match fs.content filename with
  | none => .error .cannot_be_read
  | some data =>
    let size := data.length
    let buffer := data
    do
      let magic ← memcmp buffer 0 (leBytes 4 HEADER_MAGIC_ID) 4
      if magic ≠ 0 then
        .error .not_a_valid_save_file
      else
        let length ← memcmp buffer 4 (leBytes 2 size) 2
        if length ≠ 0 then
          .error .not_a_valid_save_file
        else
          pure { filename := filename, size := size, buffer := buffer }

/-- The destructor: when the file can be opened for writing, `size` bytes of
the buffer replace its content; otherwise nothing happens. -/
def flush (s : NFSU2SaveFile) (fs : FileSystem) : Except Error FileSystem :=
  if fs.writable s.filename then do
    let data ← readBytes s.buffer 0 s.size
    pure (fs.write s.filename data)
  else pure fs

/-- Method `get_profile_username`: the C string at `0xD225`. -/
def get_profile_username (s : NFSU2SaveFile) : Except Error (List Byte) :=
  cstring (s.buffer.drop 0xD225)

/-- Method `get_money`: the `int32_t` stored at `0xA16A`. -/
def get_money (s : NFSU2SaveFile) : Except Error Int := do
  let bs ← readBytes s.buffer 0xA16A 4
  pure (int32_of_bytes bs)

/-- Method `set_money`: stores an `int32_t` at `0xA16A`. -/
def set_money (s : NFSU2SaveFile) (new_money : Int) : Except Error NFSU2SaveFile := do
  let buffer ← writeBytes s.buffer 0xA16A (int32_bytes new_money)
  pure { s with buffer := buffer }

/-- Body of the loop of `car_slots_used` for slot `i`. -/
def car_slots_step (buffer : List Byte) (result : Nat) (i : Nat) : Except Error Nat := do
  let c ← memcmp buffer (START_INDEX + i * SIZE_CAR_SLOT) (leBytes 2 ZERO) 2
  pure (if c ≠ 0 then result + 1 else result)

/-- Method `car_slots_used`. -/
def car_slots_used (s : NFSU2SaveFile) : Except Error Nat :=
  (List.range NUM_CAR_SLOTS).foldlM (car_slots_step s.buffer) 0

/-- Method `change_car_performance`: nothing for an index outside `[0, 5)`,
otherwise the loop storing the mode byte into each of the `TOTAL_PARTS` bytes
from `PATCH_POINT` on. -/
def change_car_performance (s : NFSU2SaveFile) (index : Int)
    (car_performance : CAR_PERFORMACE) : Except Error NFSU2SaveFile :=
  if index < 0 ∨ index ≥ (NUM_CAR_SLOTS : Int) then
    pure s
  else do
    let PATCH_POINT := START_INDEX + index.toNat * SIZE_CAR_SLOT + 0x94
    let buffer ← (List.range TOTAL_PARTS).foldlM
      (fun buffer i => writeByte buffer (PATCH_POINT + i) car_performance.toByte) s.buffer
    pure { s with buffer := buffer }

/-- What `operator <<` reads from the record. -/
def print (s : NFSU2SaveFile) : Except Error (List Byte × Int × Nat) := do
  let name ← s.get_profile_username
  let money ← s.get_money
  let used ← s.car_slots_used
  pure (name, money, used)

end NFSU2SaveFile

/-! ## The program -/

/-- Standard input, line by line, each line given by what `std::stol` makes of
it. -/
abbrev Stdin := List (Option Int)

/-- The loop `while (true) { getline; try { x = stol(s); break; } catch .. }`.
At the end of the input every further line is empty and `stol` throws, so the
loop never ends. -/
def promptLong : Stdin → Except Error (Int × Stdin)
  | [] => .error .input_exhausted
  | none :: rest => promptLong rest
  | some n :: rest => .ok (n, rest)

/-- The statement `if (option == 0 || option == 1) { .. }` of the loop body of
`main`, for the loop index `i` (a `long` passed as an `int`). -/
def applyOption (save_file : NFSU2SaveFile) (i : Int) (option : Int) :
    Except Error NFSU2SaveFile :=
  if option = 0 ∨ option = 1 then do
    let save_file ←
      if option = 0 then save_file.change_car_performance (toInt32 i) .NILL_OUT
      else pure save_file
    if option = 1 then save_file.change_car_performance (toInt32 i) .MAX_OUT
    else pure save_file
  else pure save_file

/-- The loop `for (long i = ..; i < CAR_SLOTS_USED; i++)` of `main`, with
`remaining` iterations to go from index `i`; the answer read by the prompt is
stored in an `int32_t`. -/
def carLoop : Nat → Int → NFSU2SaveFile → Stdin → Except Error (NFSU2SaveFile × Stdin)
  | 0, _, save_file, stdin => pure (save_file, stdin)
  | remaining + 1, i, save_file, stdin => do
    let (answer, stdin) ← promptLong stdin
    let option := toInt32 answer
    let save_file ← applyOption save_file i option
    carLoop remaining (i + 1) save_file stdin

/-- The body of the `try` block of `main` once the record is constructed: the
record is printed, the money answer is stored in an `int32_t` and applied when
positive, then the loop over `CAR_SLOTS_USED` runs. -/
def session (save_file : NFSU2SaveFile) (stdin : Stdin) : Except Error (NFSU2SaveFile × Stdin) := do
  let _ ← save_file.print
  let (answer, stdin) ← promptLong stdin
  let new_money := toInt32 answer
  let save_file ←
    if new_money ≠ -1 ∧ new_money > 0 then save_file.set_money new_money else pure save_file
  let CAR_SLOTS_USED ← save_file.car_slots_used
  carLoop CAR_SLOTS_USED 0 save_file stdin

/-- The comparison `strncmp(arg, "-b", 2) == 0`. -/
def is_dash_b (arg : String) : Bool :=
  arg.toList.take 2 == ['-', 'b']

/-- The function `main`: exit code and files left behind. -/
def main (argv : List String) (fs : FileSystem) (stdin : Stdin) : Except Error (Int × FileSystem) :=
  let argc := argv.length
  if argc = 1 ∨ argc > 3 then
    pure (1, fs)
  else
    match argv[1]? with
    | none => .error .out_of_bounds
    | some path =>
      if ¬ file_exists fs path then
        pure (2, fs)
      else do
        let do_backup := argc = 3 ∧ (argv[2]?.map is_dash_b) = some true
        let fs ← if do_backup then backup fs path (path ++ ".bak") else pure fs
        match NFSU2SaveFile.load fs path with
        | .error .cannot_be_read => pure (2, fs)
        | .error .not_a_valid_save_file => pure (2, fs)
        | .error e => .error e
        | .ok save_file =>
          let (save_file, _) ← session save_file stdin
          let fs ← save_file.flush fs
          pure (0, fs)

/-- The exit code of a run. -/
def exitCode (r : Except Error (Int × FileSystem)) : Except Error Int :=
  r.map Prod.fst

/-! ## The header as the format describes it -/

/-- The ASCII bytes of "20CM". -/
def magic20CM : List Byte := [0x32, 0x30, 0x43, 0x4D]

/-- The low 16 bits of `n` as two bytes, least significant first. -/
def le16 (n : Nat) : List Byte :=
  [Fin.ofNat (n % 2 ^ 16 % 256), Fin.ofNat (n % 2 ^ 16 / 256)]

/-- The header condition of the format: bytes `[0,4)` are "20CM" and bytes
`[4,6)` are the low 16 bits of the length of the buffer itself. -/
def validHeader (b : List Byte) : Prop :=
  b.take 4 = magic20CM ∧ (b.drop 4).take 2 = le16 b.length

instance (b : List Byte) : Decidable (validHeader b) := by
  unfold validHeader; infer_instance

/-- Byte `k` of the two's complement little-endian encoding of `v` on four
bytes. -/
def int32_byte (v : Int) (k : Nat) : Byte :=
  Fin.ofNat ((v % 2 ^ 32).toNat / 256 ^ k)

/-! ## Car slots as the format describes them -/

/-- Offset of the first byte of car slot `n`. -/
def slotBase (n : Nat) : Nat := 0x5AEC + n * 0x7F2

/-- A slot is in use when its first two bytes are not both zero. -/
def slotUsed (buffer : List Byte) (n : Nat) : Prop :=
  ¬ (buffer[slotBase n]? = some 0 ∧ buffer[slotBase n + 1]? = some 0)

instance (buffer : List Byte) (n : Nat) : Decidable (slotUsed buffer n) := by
  unfold slotUsed; infer_instance

/-! ## Sample inputs -/

/-- A disk holding one file, every path being writable. -/
def diskWith (path : String) (data : List Byte) : FileSystem :=
  { content := fun p => if p = path then some data else none
    writable := fun _ => true }

/-- The smallest file that passes the header check: "20CM" 06 00. -/
def tinyFile : List Byte := [0x32, 0x30, 0x43, 0x4D, 0x06, 0x00]

/-- A file of six bytes that does not start with "20CM". -/
def badFile : List Byte := [1, 2, 3, 4, 5, 6]

/-- A file of `0xE000` bytes: "20CM" 00 E0 and zeros. -/
def sampleFile : List Byte :=
  [0x32, 0x30, 0x43, 0x4D, 0x00, 0xE0] ++ List.replicate (0xE000 - 6) 0

/-- The record the constructor builds from `sampleFile`. -/
def sampleSave : NFSU2SaveFile :=
  { filename := "save", size := 0xE000, buffer := sampleFile }

/-- The sample file with car slots 1 and 3 in use and the others empty. -/
def slotsFile : List Byte :=
  (sampleFile.set (0x5AEC + 1 * 0x7F2) 7).set (0x5AEC + 3 * 0x7F2 + 1) 9

/-- The record the constructor builds from `slotsFile`. -/
def slotsSave : NFSU2SaveFile :=
  { filename := "save", size := 0xE000, buffer := slotsFile }

/-- The sample file with car slot 0 in use and one of its performance bytes
set to 2. -/
def tunedFile : List Byte :=
  (sampleFile.set 0x5AEC 1).set (0x5AEC + 0x94) 2

/-- The record the constructor builds from `tunedFile`. -/
def tunedSave : NFSU2SaveFile :=
  { filename := "save", size := 0xE000, buffer := tunedFile }

/-- The sample file with car slot 1 in use and every other slot empty. -/
def secondSlotFile : List Byte :=
  sampleFile.set (0x5AEC + 0x7F2) 1

/-- The record the constructor builds from `secondSlotFile`. -/
def secondSlotSave : NFSU2SaveFile :=
  { filename := "save", size := 0xE000, buffer := secondSlotFile }

/-- A call of one of the two mutators of the class. -/
inductive Mutator where
  | money (v : Int)
  | performance (index : Int) (mode : CAR_PERFORMACE)

/-- The call on a record. -/
def Mutator.apply (s : NFSU2SaveFile) : Mutator → Except Error NFSU2SaveFile
  | .money v => s.set_money v
  | .performance index mode => s.change_car_performance index mode

/-- The end of the range of offsets a call touches: `0xA16E` for the money,
the end of the performance block for a slot index in `[0,5)`, nothing for any
other index. -/
def Mutator.touchedEnd : Mutator → Nat
  | .money _ => 0xA16E
  | .performance index _ =>
    if index < 0 ∨ 5 ≤ index then 0 else 0x5AEC + index.toNat * 0x7F2 + 0x94 + 0x44

/-- A sequence of calls, one after the other. -/
def applyMutators (ops : List Mutator) (s : NFSU2SaveFile) : Except Error NFSU2SaveFile :=
  ops.foldlM (fun s op => op.apply s) s

/-- A file whose profile name is "AB": the sample file with the bytes 0x41
0x42 at `0xD225` and `0xD226`. -/
def namedFile : List Byte :=
  (sampleFile.set 0xD225 0x41).set 0xD226 0x42

/-- The record the constructor builds from `namedFile`. -/
def namedSave : NFSU2SaveFile :=
  { filename := "save", size := 0xE000, buffer := namedFile }

/-- Offset `k` lies in the performance block of the slot with index `index`,
the index being one of the five slots. -/
def inBlock (index : Int) (k : Nat) : Prop :=
  0 ≤ index ∧ index < 5 ∧
    0x5AEC + index.toNat * 0x7F2 + 0x94 ≤ k ∧ k < 0x5AEC + index.toNat * 0x7F2 + 0x94 + 0x44

instance (index : Int) (k : Nat) : Decidable (inBlock index k) := by
  unfold inBlock; infer_instance

/-- Offset `k` lies in the money field. -/
def inMoney (k : Nat) : Prop := 0xA16A ≤ k ∧ k < 0xA16E

instance (k : Nat) : Decidable (inMoney k) := by
  unfold inMoney; infer_instance

/-! ## Lemmas on bytes and buffers -/

open NFSU2SaveFile

theorem compareBytes_eq_zero (xs ys : List Byte) (hlen : xs.length = ys.length) :
    compareBytes xs ys = 0 ↔ xs = ys := by
  induction xs generalizing ys with
  | nil =>
    cases ys with
    | nil => simp [compareBytes]
    | cons b bs => simp at hlen
  | cons a as ih =>
    cases ys with
    | nil => simp at hlen
    | cons b bs =>
      simp only [List.length_cons, Nat.add_right_cancel_iff] at hlen
      simp only [compareBytes, List.cons.injEq]
      by_cases h1 : a.val < b.val
      · simp [h1]; intro h; subst h; omega
      · by_cases h2 : b.val < a.val
        · simp [h1, h2]; intro h; subst h; omega
        · have hab : a = b := Fin.ext (by omega)
          simp [h1, h2, hab, ih bs hlen]

theorem toInt32_of_range (v : Int) (hlo : -2 ^ 31 ≤ v) (hhi : v < 2 ^ 31) : toInt32 v = v := by
  unfold toInt32
  simp only
  split <;> omega

theorem toInt32_range (n : Int) : -2 ^ 31 ≤ toInt32 n ∧ toInt32 n < 2 ^ 31 := by
  unfold toInt32
  simp only
  split <;> omega

theorem leValue_leBytes4 (x : Nat) (hx : x < 2 ^ 32) : leValue (leBytes 4 x) = x := by
  simp [leBytes, leValue, List.range_succ, Fin.ofNat]
  omega

theorem int32_roundtrip (v : Int) (hlo : -2 ^ 31 ≤ v) (hhi : v < 2 ^ 31) :
    int32_of_bytes (int32_bytes v) = v := by
  unfold int32_of_bytes int32_bytes
  rw [leValue_leBytes4 _ (by omega)]
  unfold toInt32
  simp only [Int.ofNat_eq_coe]
  rw [Int.toNat_of_nonneg (by omega)]
  split <;> omega

theorem leBytes_magic : leBytes 4 NFSU2SaveFile.HEADER_MAGIC_ID = magic20CM := by decide

theorem leBytes_two (n : Nat) : leBytes 2 n = le16 n := by
  simp [leBytes, le16, List.range_succ, Fin.ofNat]
  omega

theorem getElem?_take_drop (buffer : List Byte) (off n k : Nat) :
    ((buffer.drop off).take n)[k]? = if k < n then buffer[off + k]? else none := by
  by_cases h : k < n
  · simp [h, List.getElem?_take, List.getElem?_drop]
  · simp [h, List.getElem?_take]

theorem take_drop_eq_iff (buffer : List Byte) (off : Nat) (bs : List Byte) :
    (buffer.drop off).take bs.length = bs ↔ ∀ k, k < bs.length → buffer[off + k]? = bs[k]? := by
  constructor
  · intro h k hk
    have := getElem?_take_drop buffer off bs.length k
    rw [h] at this
    simp only [hk, if_true] at this
    exact this.symm
  · intro h
    apply List.ext_getElem?
    intro k
    rw [getElem?_take_drop]
    by_cases hk : k < bs.length
    · simp [hk, h k hk]
    · simp only [hk, if_false]
      exact (List.getElem?_eq_none (by omega)).symm

theorem getElem?_patch (buffer : List Byte) (off : Nat) (bs : List Byte) (k : Nat)
    (hin : off + bs.length ≤ buffer.length) :
    (buffer.take off ++ bs ++ buffer.drop (off + bs.length))[k]? =
      if off ≤ k ∧ k < off + bs.length then bs[k - off]? else buffer[k]? := by
  by_cases h1 : k < off
  · have : ¬ (off ≤ k ∧ k < off + bs.length) := by omega
    rw [if_neg this, List.append_assoc, List.getElem?_append_left (by simp; omega)]
    simp [List.getElem?_take, h1]
  · by_cases h2 : k < off + bs.length
    · have : off ≤ k ∧ k < off + bs.length := by omega
      rw [if_pos this, List.append_assoc, List.getElem?_append_right (by simp; omega)]
      have hlen : (List.take off buffer).length = off := by simp; omega
      rw [hlen, List.getElem?_append_left (by omega)]
    · have : ¬ (off ≤ k ∧ k < off + bs.length) := by omega
      rw [if_neg this, List.getElem?_append_right (by simp; omega)]
      have hlen : (List.take off buffer ++ bs).length = off + bs.length := by simp; omega
      rw [hlen, List.getElem?_drop]
      congr 1
      omega

theorem length_patch (buffer : List Byte) (off : Nat) (bs : List Byte)
    (hin : off + bs.length ≤ buffer.length) :
    (buffer.take off ++ bs ++ buffer.drop (off + bs.length)).length = buffer.length := by
  simp; omega

theorem memcmp_eq_zero (buffer : List Byte) (off : Nat) (obj : List Byte) (n : Nat)
    (hin : off + n ≤ buffer.length) (hobj : obj.length = n) :
    ∃ c, memcmp buffer off obj n = .ok c ∧ (c = 0 ↔ (buffer.drop off).take n = obj) := by
  refine ⟨compareBytes ((buffer.drop off).take n) (obj.take n), ?_, ?_⟩
  · simp [memcmp, readBytes, hin, bind, Except.bind, pure, Except.pure]
  · have htake : obj.take n = obj := by rw [← hobj]; exact List.take_length obj
    rw [htake]
    apply compareBytes_eq_zero
    simp [hobj]; omega

theorem memcmp_out_of_bounds (buffer : List Byte) (off : Nat) (obj : List Byte) (n : Nat)
    (hout : buffer.length < off + n) :
    memcmp buffer off obj n = .error .out_of_bounds := by
  have : ¬ (off + n ≤ buffer.length) := by omega
  simp [memcmp, readBytes, this, bind, Except.bind]

/-! ## The constructor -/

theorem load_of_content (fs : FileSystem) (filename : String) (b : List Byte)
    (hfile : fs.content filename = some b) (hlen : 6 ≤ b.length) :
    NFSU2SaveFile.load fs filename =
      if validHeader b then .ok { filename := filename, size := b.length, buffer := b }
      else .error .not_a_valid_save_file := by
  obtain ⟨c1, hc1, hz1⟩ :=
    memcmp_eq_zero b 0 (leBytes 4 NFSU2SaveFile.HEADER_MAGIC_ID) 4 (by omega) (by simp [leBytes])
  obtain ⟨c2, hc2, hz2⟩ := memcmp_eq_zero b 4 (leBytes 2 b.length) 2 (by omega) (by simp [leBytes])
  rw [leBytes_magic] at hz1
  rw [leBytes_two] at hz2
  simp only [List.drop_zero] at hz1
  unfold NFSU2SaveFile.load
  simp only [hfile, hc1, hc2, bind, Except.bind, pure, Except.pure]
  unfold validHeader
  by_cases h1 : c1 = 0
  · by_cases h2 : c2 = 0
    · simp [h1, h2, hz1.mp h1, hz2.mp h2]
    · have := mt hz2.mpr h2
      simp [h1, h2, this]
  · have := mt hz1.mpr h1
    simp [h1, this]

theorem validHeader_length (b : List Byte) (hvalid : validHeader b) : 6 ≤ b.length := by
  have h := congrArg List.length hvalid.2
  simp [le16] at h
  omega

theorem int32_bytes_length (v : Int) : (int32_bytes v).length = 4 := by
  simp [int32_bytes, leBytes]

theorem int32_bytes_getElem? (v : Int) (k : Nat) (hk : k < 4) :
    (int32_bytes v)[k]? = some (int32_byte v k) := by
  simp [int32_bytes, leBytes, int32_byte, List.getElem?_map, List.getElem?_range, hk]

theorem get_money_eq (s : NFSU2SaveFile) (hcover : 0xA16E ≤ s.buffer.length) :
    s.get_money = .ok (int32_of_bytes ((s.buffer.drop 0xA16A).take 4)) := by
  have h : 0xA16A + 4 ≤ s.buffer.length := by omega
  unfold get_money readBytes
  rw [if_pos h]
  rfl

theorem set_money_eq (s : NFSU2SaveFile) (v : Int) (hcover : 0xA16E ≤ s.buffer.length) :
    s.set_money v = .ok { s with buffer := (s.buffer.take 0xA16A ++ int32_bytes v ++
      s.buffer.drop (0xA16A + (int32_bytes v).length)) } := by
  have h : 0xA16A + (int32_bytes v).length ≤ s.buffer.length := by
    rw [int32_bytes_length]; omega
  unfold set_money writeBytes
  rw [if_pos h]
  rfl

theorem set_money_spec (s : NFSU2SaveFile) (v : Int) (hcover : 0xA16E ≤ s.buffer.length) :
    ∃ out, s.set_money v = .ok out ∧ out.filename = s.filename ∧ out.size = s.size ∧
      out.buffer.length = s.buffer.length ∧
      (∀ k, k < 4 → out.buffer[0xA16A + k]? = some (int32_byte v k)) ∧
      (∀ k, ¬ (0xA16A ≤ k ∧ k < 0xA16E) → out.buffer[k]? = s.buffer[k]?) ∧
      (out.buffer.drop 0xA16A).take 4 = int32_bytes v := by
  have h : 0xA16A + (int32_bytes v).length ≤ s.buffer.length := by
    rw [int32_bytes_length]; omega
  have hpatch := fun k => getElem?_patch s.buffer 0xA16A (int32_bytes v) k h
  have hwritten : ∀ k, k < 4 →
      (s.buffer.take 0xA16A ++ int32_bytes v ++
        s.buffer.drop (0xA16A + (int32_bytes v).length))[0xA16A + k]? = some (int32_byte v k) := by
    intro k hk
    rw [hpatch, int32_bytes_length, if_pos (by omega), Nat.add_sub_cancel_left,
      int32_bytes_getElem? v k hk]
  refine ⟨_, set_money_eq s v hcover, rfl, rfl, length_patch _ _ _ h, hwritten, ?_, ?_⟩
  · intro k hk
    show (s.buffer.take 0xA16A ++ int32_bytes v ++
        s.buffer.drop (0xA16A + (int32_bytes v).length))[k]? = s.buffer[k]?
    rw [hpatch, int32_bytes_length, if_neg (by omega)]
  · show (List.drop 0xA16A (s.buffer.take 0xA16A ++ int32_bytes v ++
        s.buffer.drop (0xA16A + (int32_bytes v).length))).take 4 = int32_bytes v
    have := (take_drop_eq_iff (s.buffer.take 0xA16A ++ int32_bytes v ++
        s.buffer.drop (0xA16A + (int32_bytes v).length)) 0xA16A (int32_bytes v)).mpr
    rw [int32_bytes_length] at this
    apply this
    intro k hk
    have hw := hwritten k hk
    rw [int32_bytes_length] at hw
    rw [hw, int32_bytes_getElem? v k hk]

theorem get_money_after_set_money (s : NFSU2SaveFile) (v : Int)
    (hcover : 0xA16E ≤ s.buffer.length) (hlo : -2 ^ 31 ≤ v) (hhi : v < 2 ^ 31) :
    ∃ out, s.set_money v = .ok out ∧ out.get_money = .ok v := by
  obtain ⟨out, hset, _, _, hlen, _, _, hbytes⟩ := set_money_spec s v hcover
  refine ⟨out, hset, ?_⟩
  rw [get_money_eq out (by omega), hbytes, int32_roundtrip v hlo hhi]

/-- C2: for every record whose buffer covers offsets `0xA16A..0xA16D` and every
signed 32-bit value `v` (negative, zero, `INT32_MIN` and `INT32_MAX` included),
`get_money()` called after `set_money(v)` returns `v`. -/
theorem C2_set_then_get_money (s : NFSU2SaveFile) (v : Int)
    (hcover : 0xA16E ≤ s.buffer.length) (hlo : -2 ^ 31 ≤ v) (hhi : v < 2 ^ 31) :
    (s.set_money v >>= fun s2 => s2.get_money) = .ok v := by
  obtain ⟨out, hset, hget⟩ := get_money_after_set_money s v hcover hlo hhi
  rw [hset]
  exact hget


theorem int32_bytes_eq (v : Int) :
    int32_bytes v = [int32_byte v 0, int32_byte v 1, int32_byte v 2, int32_byte v 3] := by
  simp [int32_bytes, leBytes, int32_byte, List.range_succ]

theorem int32_bytes_of_bytes (bs : List Byte) (hlen : bs.length = 4) :
    int32_bytes (int32_of_bytes bs) = bs := by
  match bs, hlen with
  | [a, b, c, d], _ =>
    have ha := a.isLt
    have hb := b.isLt
    have hc := c.isLt
    have hd := d.isLt
    have hu : ((toInt32 (Int.ofNat (leValue [a, b, c, d]))) % 2 ^ 32).toNat
        = a.val + 256 * (b.val + 256 * (c.val + 256 * d.val)) := by
      unfold toInt32
      simp only [leValue, Int.ofNat_eq_coe]
      split <;> omega
    unfold int32_bytes int32_of_bytes
    rw [hu]
    simp only [leBytes, List.range_succ, List.range_zero, List.nil_append, List.cons_append,
      List.map_cons, List.map_nil, List.cons.injEq, and_true]
    refine ⟨?_, ?_, ?_, ?_⟩ <;> apply Fin.ext <;> simp [Fin.ofNat] <;> omega

theorem sampleFile_length : sampleFile.length = 0xE000 := by
  unfold sampleFile
  rw [List.length_append, List.length_replicate]
  show 6 + (0xE000 - 6) = 0xE000
  omega

theorem sampleFile_zero (k : Nat) (h6 : 6 ≤ k) (hk : k < 0xE000) : sampleFile[k]? = some 0 := by
  unfold sampleFile
  rw [List.getElem?_append_right (by simp only [List.length_cons, List.length_nil]; omega),
    List.getElem?_replicate]
  simp only [List.length_cons, List.length_nil]
  rw [if_pos (by omega)]

theorem sampleFile_zeros (off n : Nat) (h6 : 6 ≤ off) (hk : off + n ≤ 0xE000) :
    (sampleFile.drop off).take n = List.replicate n 0 := by
  have := (take_drop_eq_iff sampleFile off (List.replicate n 0)).mpr
  rw [List.length_replicate] at this
  apply this
  intro k hk2
  rw [sampleFile_zero _ (by omega) (by omega)]
  simp [List.getElem?_replicate, hk2]

/-- C3: `set_money(v)` stores the four bytes of the little-endian two's
complement encoding of `v` at `0xA16A..0xA16D`, and `get_money()` returns the
32-bit signed value having the four bytes found there as its encoding.  In
particular a buffer of length `0xE000` with magic "20CM", bytes `[4,6)` equal
to `00 E0` and money bytes `00 00 00 00` is accepted by the constructor and
reports money 0, and after `set_money(5000)` the bytes at `0xA16A` are
`88 13 00 00`. -/
theorem C3_money_is_little_endian (s : NFSU2SaveFile) (v : Int) (fs : FileSystem)
    (filename : String) (b : List Byte)
    (hcover : 0xA16E ≤ s.buffer.length)
    (hfile : fs.content filename = some b) (hlen : b.length = 0xE000)
    (hmagic : b.take 4 = [0x32, 0x30, 0x43, 0x4D]) (hsize : (b.drop 4).take 2 = [0x00, 0xE0])
    (hmoney : (b.drop 0xA16A).take 4 = [0x00, 0x00, 0x00, 0x00]) :
    (∃ s2, s.set_money v = .ok s2 ∧ (s2.buffer.drop 0xA16A).take 4 =
      [int32_byte v 0, int32_byte v 1, int32_byte v 2, int32_byte v 3]) ∧
    (∃ r, s.get_money = .ok r ∧ -2 ^ 31 ≤ r ∧ r < 2 ^ 31 ∧ (s.buffer.drop 0xA16A).take 4 =
      [int32_byte r 0, int32_byte r 1, int32_byte r 2, int32_byte r 3]) ∧
    (∃ s0, NFSU2SaveFile.load fs filename = .ok s0 ∧ s0.get_money = .ok 0 ∧
      ∃ s1, s0.set_money 5000 = .ok s1 ∧
        (s1.buffer.drop 0xA16A).take 4 = [0x88, 0x13, 0x00, 0x00]) := by
  refine ⟨?_, ?_, ?_⟩
  · obtain ⟨out, hset, _, _, _, _, _, hbytes⟩ := set_money_spec s v hcover
    exact ⟨out, hset, by rw [hbytes, int32_bytes_eq]⟩
  · refine ⟨_, get_money_eq s hcover, (toInt32_range _).1, (toInt32_range _).2, ?_⟩
    rw [← int32_bytes_eq, int32_bytes_of_bytes]
    simp; omega
  · have hvalid : validHeader b := by
      refine ⟨hmagic, ?_⟩
      rw [hsize, hlen]
      decide
    have hload := load_of_content fs filename b hfile (by omega)
    rw [if_pos hvalid] at hload
    refine ⟨_, hload, ?_, ?_⟩
    · rw [get_money_eq _ (by show 0xA16E ≤ b.length; omega)]
      show Except.ok (int32_of_bytes ((b.drop 0xA16A).take 4)) = _
      rw [hmoney]
      decide
    · obtain ⟨out, hset, _, _, _, _, _, hbytes⟩ :=
        set_money_spec { filename := filename, size := b.length, buffer := b } 5000
          (by show 0xA16E ≤ b.length; omega)
      refine ⟨out, hset, ?_⟩
      rw [hbytes]
      decide

/-- Witness of C3 on the sample record and the sample file. -/
theorem C3_money_is_little_endian_witness :
    (∃ s2, sampleSave.set_money (-2) = .ok s2 ∧ (s2.buffer.drop 0xA16A).take 4 =
      [int32_byte (-2) 0, int32_byte (-2) 1, int32_byte (-2) 2, int32_byte (-2) 3]) ∧
    (∃ r, sampleSave.get_money = .ok r ∧ -2 ^ 31 ≤ r ∧ r < 2 ^ 31 ∧
      (sampleSave.buffer.drop 0xA16A).take 4 =
        [int32_byte r 0, int32_byte r 1, int32_byte r 2, int32_byte r 3]) ∧
    (∃ s0, NFSU2SaveFile.load (diskWith "save" sampleFile) "save" = .ok s0 ∧
      s0.get_money = .ok 0 ∧
      ∃ s1, s0.set_money 5000 = .ok s1 ∧
        (s1.buffer.drop 0xA16A).take 4 = [0x88, 0x13, 0x00, 0x00]) :=
  C3_money_is_little_endian sampleSave (-2) (diskWith "save" sampleFile) "save" sampleFile
    (by show 0xA16E ≤ sampleFile.length; rw [sampleFile_length]; decide)
    (by simp [diskWith]) sampleFile_length
    (by decide) (by decide) (sampleFile_zeros 0xA16A 4 (by decide) (by decide))

/-- Witness of C2 at `INT32_MIN` on the sample record. -/
theorem C2_set_then_get_money_witness :
    (sampleSave.set_money (-2147483648) >>= fun s2 => s2.get_money) = .ok (-2147483648) :=
  C2_set_then_get_money sampleSave (-2147483648)
    (by show 0xA16E ≤ sampleFile.length; rw [sampleFile_length]; decide) (by decide) (by decide)


/-! ## Car slots -/


theorem car_slots_step_eq (buffer : List Byte) (result i : Nat)
    (hin : slotBase i + 2 ≤ buffer.length) :
    car_slots_step buffer result i = .ok (if slotUsed buffer i then result + 1 else result) := by
  have hbase : START_INDEX + i * SIZE_CAR_SLOT = slotBase i := rfl
  obtain ⟨c, hc, hz⟩ := memcmp_eq_zero buffer (slotBase i) (leBytes 2 ZERO) 2 hin (by simp [leBytes])
  have hzero : leBytes 2 ZERO = [0, 0] := by decide
  rw [hzero] at hz
  have hiff : c = 0 ↔ ¬ slotUsed buffer i := by
    rw [hz]
    have := take_drop_eq_iff buffer (slotBase i) [0, 0]
    simp only [List.length_cons, List.length_nil, Nat.zero_add, Nat.reduceAdd] at this
    rw [this]
    unfold slotUsed
    rw [not_not]
    constructor
    · intro h
      exact ⟨by simpa using h 0 (by omega), by simpa using h 1 (by omega)⟩
    · rintro ⟨h0, h1⟩ k hk
      have : k = 0 ∨ k = 1 := by omega
      rcases this with rfl | rfl
      · simpa using h0
      · simpa using h1
  unfold car_slots_step
  rw [hbase, hc]
  by_cases hu : slotUsed buffer i
  · have : c ≠ 0 := fun h => (hiff.mp h) hu
    simp [bind, Except.bind, pure, Except.pure, hu, this]
  · have : c = 0 := hiff.mpr hu
    simp [bind, Except.bind, pure, Except.pure, hu, this]

theorem car_slots_used_eq (s : NFSU2SaveFile) (hcover : slotBase 4 + 2 ≤ s.buffer.length) :
    s.car_slots_used = .ok
      ((if slotUsed s.buffer 0 then 1 else 0) + (if slotUsed s.buffer 1 then 1 else 0) +
       (if slotUsed s.buffer 2 then 1 else 0) + (if slotUsed s.buffer 3 then 1 else 0) +
       (if slotUsed s.buffer 4 then 1 else 0)) := by
  have hrange : List.range NUM_CAR_SLOTS = [0, 1, 2, 3, 4] := by decide
  have h0 := fun r => car_slots_step_eq s.buffer r 0 (by simp only [slotBase] at *; omega)
  have h1 := fun r => car_slots_step_eq s.buffer r 1 (by simp only [slotBase] at *; omega)
  have h2 := fun r => car_slots_step_eq s.buffer r 2 (by simp only [slotBase] at *; omega)
  have h3 := fun r => car_slots_step_eq s.buffer r 3 (by simp only [slotBase] at *; omega)
  have h4 := fun r => car_slots_step_eq s.buffer r 4 (by simp only [slotBase] at *; omega)
  unfold car_slots_used
  rw [hrange]
  simp only [List.foldlM, bind, Except.bind, h0, h1, h2, h3, h4, pure, Except.pure]
  by_cases u0 : slotUsed s.buffer 0 <;> by_cases u1 : slotUsed s.buffer 1 <;>
    by_cases u2 : slotUsed s.buffer 2 <;> by_cases u3 : slotUsed s.buffer 3 <;>
    by_cases u4 : slotUsed s.buffer 4 <;> simp [u0, u1, u2, u3, u4]

/-- C4: for every buffer covering the five car slots and every set `U` of slot
indices, if exactly the slots in `U` have first two bytes (at
`0x5AEC + n * 0x7F2`) not both zero, then `car_slots_used()` returns the
number of elements of `U`, which is at most 5: the result depends on how many
slots are in use and not on which ones. -/
theorem C4_car_slots_used_is_count (s : NFSU2SaveFile) (U : Finset (Fin 5))
    (hcover : 0x5AEC + 5 * 0x7F2 ≤ s.buffer.length)
    (hU : ∀ n : Fin 5, n ∈ U ↔ slotUsed s.buffer n.val) :
    s.car_slots_used = .ok U.card ∧ U.card ≤ 5 := by
  have hUeq : U = Finset.univ.filter (fun n : Fin 5 => slotUsed s.buffer n.val) := by
    ext n
    simp [hU n]
  refine ⟨?_, ?_⟩
  · rw [car_slots_used_eq s (by simp only [slotBase]; omega), hUeq, Finset.card_filter,
      Fin.sum_univ_five]
    rfl
  · simpa using Finset.card_le_univ U



theorem slotsFile_length : slotsFile.length = 0xE000 := by
  simp only [slotsFile, List.length_set, sampleFile_length]

theorem slotsFile_getElem? (k : Nat) (h6 : 6 ≤ k) (hk : k < 0xE000) :
    slotsFile[k]? =
      if k = 0x5AEC + 3 * 0x7F2 + 1 then some 9
      else if k = 0x5AEC + 1 * 0x7F2 then some 7 else some 0 := by
  unfold slotsFile
  rw [List.getElem?_set, List.getElem?_set, sampleFile_zero k h6 hk]
  simp only [List.length_set, sampleFile_length]
  by_cases h3 : 0x5AEC + 3 * 0x7F2 + 1 = k
  · subst h3; simp
  · have h3b : ¬ (k = 0x5AEC + 3 * 0x7F2 + 1) := fun h => h3 h.symm
    rw [if_neg h3, if_neg h3b]
    by_cases h1 : 0x5AEC + 1 * 0x7F2 = k
    · subst h1; simp
    · have h1b : ¬ (k = 0x5AEC + 1 * 0x7F2) := fun h => h1 h.symm
      rw [if_neg h1, if_neg h1b]

theorem slotsFile_used (n : Fin 5) : n ∈ ({1, 3} : Finset (Fin 5)) ↔ slotUsed slotsFile n.val := by
  unfold slotUsed slotBase
  fin_cases n <;>
    simp [slotsFile_getElem?]

/-- Witness of C4 on a buffer where exactly slots 1 and 3 are in use. -/
theorem C4_car_slots_used_is_count_witness :
    slotsSave.car_slots_used = .ok ({1, 3} : Finset (Fin 5)).card ∧
    ({1, 3} : Finset (Fin 5)).card ≤ 5 :=
  C4_car_slots_used_is_count slotsSave {1, 3}
    (by show _ ≤ slotsFile.length; rw [slotsFile_length]; decide) slotsFile_used


/-! ## Car performance -/

theorem fill_spec (buffer : List Byte) (p : Nat) (c : Byte) (n : Nat)
    (hin : p + n ≤ buffer.length) :
    ∃ out, (List.range n).foldlM (fun buffer i => writeByte buffer (p + i) c) buffer = .ok out ∧
      out.length = buffer.length ∧
      ∀ k, out[k]? = if p ≤ k ∧ k < p + n then some c else buffer[k]? := by
  induction n with
  | zero =>
    refine ⟨buffer, by simp [pure, Except.pure], rfl, ?_⟩
    intro k
    have : ¬ (p ≤ k ∧ k < p + 0) := by omega
    rw [if_neg this]
  | succ n ih =>
    obtain ⟨mid, hmid, hlen, hget⟩ := ih (by omega)
    refine ⟨mid.set (p + n) c, ?_, by simp [hlen], ?_⟩
    · rw [List.range_succ, List.foldlM_append, hmid]
      have : p + n < mid.length := by omega
      simp [bind, Except.bind, writeByte, this, pure, Except.pure]
    · intro k
      rw [List.getElem?_set, hget]
      by_cases hk : p + n = k
      · subst hk
        have h1 : p + n < mid.length := by omega
        have h2 : p ≤ p + n ∧ p + n < p + (n + 1) := by omega
        simp [h1, h2]
      · simp only [hk, if_false]
        by_cases h3 : p ≤ k ∧ k < p + n
        · have h4 : p ≤ k ∧ k < p + (n + 1) := by omega
          rw [if_pos h3, if_pos h4]
        · have h4 : ¬ (p ≤ k ∧ k < p + (n + 1)) := by omega
          rw [if_neg h3, if_neg h4]

theorem change_car_performance_spec (s : NFSU2SaveFile) (i : Nat) (mode : CAR_PERFORMACE)
    (hi : i < 5) (hcover : 0x5AEC + i * 0x7F2 + 0x94 + 0x44 ≤ s.buffer.length) :
    ∃ out, s.change_car_performance (i : Int) mode = .ok out ∧
      out.filename = s.filename ∧ out.size = s.size ∧
      out.buffer.length = s.buffer.length ∧
      ∀ k, out.buffer[k]? =
        if 0x5AEC + i * 0x7F2 + 0x94 ≤ k ∧ k < 0x5AEC + i * 0x7F2 + 0x94 + 0x44
        then some mode.toByte else s.buffer[k]? := by
  obtain ⟨buf, hfold, hlen, hget⟩ :=
    fill_spec s.buffer (0x5AEC + i * 0x7F2 + 0x94) mode.toByte 0x44 hcover
  have hguard : ¬ ((i : Int) < 0 ∨ (i : Int) ≥ (NUM_CAR_SLOTS : Int)) := by
    simp only [NUM_CAR_SLOTS]; omega
  refine ⟨{ s with buffer := buf }, ?_, rfl, rfl, hlen, hget⟩
  unfold change_car_performance
  rw [if_neg hguard]
  simp only [Int.toNat_ofNat, START_INDEX, SIZE_CAR_SLOT, TOTAL_PARTS]
  rw [hfold]
  rfl

/-- C5: for every index `i` in `[0,5)` and every buffer covering slot `i`,
`change_car_performance(i, MAX_OUT)` makes each of the `0x44` bytes at offsets
`[0x5AEC + i*0x7F2 + 0x94, 0x5AEC + i*0x7F2 + 0x94 + 0x44)` equal to 1 and
leaves every other byte of the buffer, its length and `size` unchanged; with
`NILL_OUT` the same holds with byte value 0. -/
theorem C5_change_car_performance_fills_block (s : NFSU2SaveFile) (i : Nat)
    (mode : CAR_PERFORMACE) (hi : i < 5)
    (hcover : 0x5AEC + i * 0x7F2 + 0x7F2 ≤ s.buffer.length) :
    ∃ out, s.change_car_performance (i : Int) mode = .ok out ∧
      out.size = s.size ∧ out.buffer.length = s.buffer.length ∧
      (∀ k, 0x5AEC + i * 0x7F2 + 0x94 ≤ k → k < 0x5AEC + i * 0x7F2 + 0x94 + 0x44 →
        out.buffer[k]? = some (if mode = .MAX_OUT then 1 else 0)) ∧
      (∀ k, ¬ (0x5AEC + i * 0x7F2 + 0x94 ≤ k ∧ k < 0x5AEC + i * 0x7F2 + 0x94 + 0x44) →
        out.buffer[k]? = s.buffer[k]?) := by
  obtain ⟨out, hok, _, hsize, hlen, hget⟩ := change_car_performance_spec s i mode hi (by omega)
  refine ⟨out, hok, hsize, hlen, ?_, ?_⟩
  · intro k h1 h2
    rw [hget k, if_pos ⟨h1, h2⟩]
    cases mode <;> rfl
  · intro k hk
    rw [hget k, if_neg hk]

/-- Witness of C5: slot 2 of the sample record, mode `MAX_OUT`. -/
theorem C5_change_car_performance_fills_block_witness :
    ∃ out, sampleSave.change_car_performance ((2 : Nat) : Int) .MAX_OUT = .ok out ∧
      out.size = sampleSave.size ∧ out.buffer.length = sampleSave.buffer.length ∧
      (∀ k, 0x5AEC + 2 * 0x7F2 + 0x94 ≤ k → k < 0x5AEC + 2 * 0x7F2 + 0x94 + 0x44 →
        out.buffer[k]? = some (if CAR_PERFORMACE.MAX_OUT = .MAX_OUT then 1 else 0)) ∧
      (∀ k, ¬ (0x5AEC + 2 * 0x7F2 + 0x94 ≤ k ∧ k < 0x5AEC + 2 * 0x7F2 + 0x94 + 0x44) →
        out.buffer[k]? = sampleSave.buffer[k]?) :=
  C5_change_car_performance_fills_block sampleSave 2 .MAX_OUT (by decide)
    (by show _ ≤ sampleFile.length; rw [sampleFile_length]; decide)

theorem change_car_performance_bad_index (s : NFSU2SaveFile) (index : Int)
    (mode : CAR_PERFORMACE) (hindex : index < 0 ∨ 5 ≤ index) :
    s.change_car_performance index mode = .ok s := by
  have hguard : index < 0 ∨ index ≥ (NUM_CAR_SLOTS : Int) := by
    simp only [NUM_CAR_SLOTS]; omega
  unfold change_car_performance
  rw [if_pos hguard]
  rfl

/-- C6: for every index `i` with `i < 0` or `i >= 5` and for either mode,
`change_car_performance(i, mode)` returns normally and leaves the record, and
so the whole buffer, unchanged. -/
theorem C6_change_car_performance_ignores_bad_index (s : NFSU2SaveFile) (index : Int)
    (mode : CAR_PERFORMACE) (hindex : index < 0 ∨ 5 ≤ index) :
    s.change_car_performance index mode = .ok s :=
  change_car_performance_bad_index s index mode hindex

/-- Witness of C6 at the indices 5 and -1. -/
theorem C6_change_car_performance_ignores_bad_index_witness :
    sampleSave.change_car_performance 5 .MAX_OUT = .ok sampleSave ∧
    sampleSave.change_car_performance (-1) .NILL_OUT = .ok sampleSave :=
  ⟨C6_change_car_performance_ignores_bad_index sampleSave 5 .MAX_OUT (by decide),
   C6_change_car_performance_ignores_bad_index sampleSave (-1) .NILL_OUT (by decide)⟩


/-! ## Construction and destruction -/

theorem load_short (fs : FileSystem) (filename : String) (b : List Byte)
    (hfile : fs.content filename = some b) (hlen : b.length < 6) :
    ∃ e, load fs filename = .error e := by
  unfold load
  simp only [hfile]
  by_cases h4 : 4 ≤ b.length
  · obtain ⟨c1, hc1, _⟩ :=
      memcmp_eq_zero b 0 (leBytes 4 HEADER_MAGIC_ID) 4 (by omega) (by simp [leBytes])
    rw [hc1, memcmp_out_of_bounds b 4 _ 2 (by omega)]
    by_cases h1 : c1 = 0
    · exact ⟨.out_of_bounds, by simp [bind, Except.bind, h1]⟩
    · exact ⟨.not_a_valid_save_file, by simp [bind, Except.bind, h1]⟩
  · rw [memcmp_out_of_bounds b 0 _ 4 (by omega)]
    exact ⟨_, rfl⟩

theorem load_ok_inv (fs : FileSystem) (filename : String) (s : NFSU2SaveFile)
    (hload : load fs filename = .ok s) :
    ∃ b, fs.content filename = some b ∧ 6 ≤ b.length ∧ validHeader b ∧
      s = { filename := filename, size := b.length, buffer := b } := by
  cases hfile : fs.content filename with
  | none => simp [load, hfile] at hload
  | some b =>
    by_cases hlen : 6 ≤ b.length
    · rw [load_of_content fs filename b hfile hlen] at hload
      by_cases hv : validHeader b
      · rw [if_pos hv] at hload
        exact ⟨b, rfl, hlen, hv, (Except.ok.inj hload).symm⟩
      · rw [if_neg hv] at hload
        cases hload
    · obtain ⟨e, he⟩ := load_short fs filename b hfile (by omega)
      rw [he] at hload
      cases hload

/-- C7: for every file content `b` that the constructor accepts, constructing
the record and destroying it with no mutator called in between leaves the file
holding exactly `b` (whether or not the file can be opened for writing), and
touches no other file. -/
theorem C7_load_then_flush_keeps_file (fs : FileSystem) (filename : String) (b : List Byte)
    (s : NFSU2SaveFile) (hfile : fs.content filename = some b)
    (hload : load fs filename = .ok s) :
    ∃ fs2, s.flush fs = .ok fs2 ∧ fs2.content filename = some b ∧
      ∀ p, p ≠ filename → fs2.content p = fs.content p := by
  obtain ⟨b2, hfile2, _, _, hs⟩ := load_ok_inv fs filename s hload
  rw [hfile] at hfile2
  cases hfile2
  subst hs
  unfold flush
  by_cases hw : fs.writable filename = true
  · refine ⟨fs.write filename b, ?_, ?_, ?_⟩
    · simp [hw, readBytes, bind, Except.bind, pure, Except.pure]
    · simp [FileSystem.write]
    · intro p hp
      simp [FileSystem.write, hp]
  · refine ⟨fs, ?_, hfile, fun _ _ => rfl⟩
    simp [hw, pure, Except.pure]

/-- Witness of C7 on the six byte file "20CM" 06 00. -/
theorem C7_load_then_flush_keeps_file_witness :
    load (diskWith "save" tinyFile) "save" = .ok (NFSU2SaveFile.mk "save" 6 tinyFile) ∧
    ∃ fs2, (NFSU2SaveFile.mk "save" 6 tinyFile).flush (diskWith "save" tinyFile) = .ok fs2 ∧
      fs2.content "save" = some tinyFile ∧
      ∀ p, p ≠ "save" → fs2.content p = (diskWith "save" tinyFile).content p :=
  ⟨by decide, C7_load_then_flush_keeps_file (diskWith "save" tinyFile) "save" tinyFile
    (NFSU2SaveFile.mk "save" 6 tinyFile) (by decide) (by decide)⟩


/-! ## Exit codes -/


theorem bak_ne (path : String) : path ++ ".bak" ≠ path := by
  intro h
  have := congrArg String.length h
  simp only [String.length_append, add_right_eq_self] at this
  exact absurd this (by decide)

theorem backup_content (fs fs2 : FileSystem) (path : String)
    (h : backup fs path (path ++ ".bak") = .ok fs2) :
    fs2.content path = fs.content path := by
  unfold backup at h
  cases hc : fs.content path with
  | none => rw [hc] at h; cases h
  | some data =>
    rw [hc] at h
    have h2 := Except.ok.inj h
    rw [← h2, ← hc]
    by_cases hw : fs.writable (path ++ ".bak") = true
    · simp [hw, FileSystem.write, (bak_ne path).symm]
    · simp [hw]

theorem main_usage (argv : List String) (fs : FileSystem) (stdin : Stdin)
    (hargc : argv.length = 1 ∨ 3 < argv.length) :
    main argv fs stdin = .ok (1, fs) := by
  unfold main
  simp only [gt_iff_lt]
  rw [if_pos hargc]
  rfl

theorem main_missing (argv : List String) (fs : FileSystem) (stdin : Stdin) (path : String)
    (hargc : argv.length = 2 ∨ argv.length = 3) (hpath : argv[1]? = some path)
    (hfile : fs.content path = none) :
    main argv fs stdin = .ok (2, fs) := by
  have hno : ¬ (argv.length = 1 ∨ 3 < argv.length) := by omega
  unfold main
  simp only [gt_iff_lt]
  rw [if_neg hno]
  simp [hpath, file_exists, hfile, pure, Except.pure]

theorem main_invalid (argv : List String) (fs : FileSystem) (stdin : Stdin) (path : String)
    (b : List Byte)
    (hargc : argv.length = 2 ∨ argv.length = 3) (hpath : argv[1]? = some path)
    (hfile : fs.content path = some b) (hlen : 6 ≤ b.length) (hbad : ¬ validHeader b) :
    ∃ fs2, main argv fs stdin = .ok (2, fs2) ∧ fs2.content path = some b := by
  have hno : ¬ (argv.length = 1 ∨ 3 < argv.length) := by omega
  unfold main
  simp only [gt_iff_lt]
  rw [if_neg hno]
  simp only [hpath, file_exists, hfile, Option.isSome_some, not_true_eq_false, if_false]
  by_cases hb : argv.length = 3 ∧ (argv[2]?.map is_dash_b) = some true
  · rw [if_pos hb]
    have hbk : backup fs path (path ++ ".bak") =
        .ok (if fs.writable (path ++ ".bak") then fs.write (path ++ ".bak") b else fs) := by
      simp [backup, hfile]
    have hc := backup_content fs _ path hbk
    rw [hfile] at hc
    rw [hbk]
    simp only [bind, Except.bind]
    rw [load_of_content _ path b hc hlen, if_neg hbad]
    exact ⟨_, rfl, hc⟩
  · rw [if_neg hb]
    simp only [bind, Except.bind, pure, Except.pure]
    rw [load_of_content _ path b hfile hlen, if_neg hbad]
    exact ⟨_, rfl, hfile⟩

/-- C8 (as amended): `main` returns 1 for a usage error (one argument or more
than three), and returns 2 both when the file cannot be opened for reading and
when the constructor rejects its header: the usage code differs from the other
two, which are the same, and all three are non-zero. -/
theorem C8_exit_codes (argv : List String) (fs : FileSystem) (stdin : Stdin) :
    (argv.length = 1 ∨ 3 < argv.length → exitCode (main argv fs stdin) = .ok 1) ∧
    (∀ path, (argv.length = 2 ∨ argv.length = 3) → argv[1]? = some path →
      fs.content path = none → exitCode (main argv fs stdin) = .ok 2) ∧
    (∀ path b, (argv.length = 2 ∨ argv.length = 3) → argv[1]? = some path →
      fs.content path = some b → 6 ≤ b.length → ¬ validHeader b →
      exitCode (main argv fs stdin) = .ok 2) := by
  refine ⟨?_, ?_, ?_⟩
  · intro h
    rw [main_usage argv fs stdin h]
    rfl
  · intro path hargc hpath hfile
    rw [main_missing argv fs stdin path hargc hpath hfile]
    rfl
  · intro path b hargc hpath hfile hlen hbad
    obtain ⟨fs2, hmain, _⟩ := main_invalid argv fs stdin path b hargc hpath hfile hlen hbad
    rw [hmain]
    rfl


/-- Witness of C8: a run of each failure kind. -/
theorem C8_exit_codes_witness :
    exitCode (main ["NFSU2SaveE"] (diskWith "save" tinyFile) []) = .ok 1 ∧
    exitCode (main ["NFSU2SaveE", "save"] (diskWith "other" tinyFile) []) = .ok 2 ∧
    exitCode (main ["NFSU2SaveE", "save", "-b"] (diskWith "save" badFile) []) = .ok 2 :=
  ⟨(C8_exit_codes ["NFSU2SaveE"] (diskWith "save" tinyFile) []).1 (by decide),
   (C8_exit_codes ["NFSU2SaveE", "save"] (diskWith "other" tinyFile) []).2.1 "save"
     (by decide) (by decide) (by decide),
   (C8_exit_codes ["NFSU2SaveE", "save", "-b"] (diskWith "save" badFile) []).2.2 "save" badFile
     (by decide) (by decide) (by decide) (by decide) (by decide)⟩

/-- C8 (counterexample): a run on a missing file and a run on a file whose
header is rejected return the same exit code, 2. -/
theorem C8_counterexample_same_exit_code :
    (diskWith "other" tinyFile).content "save" = none ∧
    (diskWith "save" badFile).content "save" = some badFile ∧ ¬ validHeader badFile ∧
    exitCode (main ["NFSU2SaveE", "save"] (diskWith "other" tinyFile) []) = .ok 2 ∧
    exitCode (main ["NFSU2SaveE", "save"] (diskWith "save" badFile) []) = .ok 2 := by
  decide


/-! ## Accesses and the size of the buffer -/

theorem mem_drop_iff (l : List Byte) (n : Nat) (x : Byte) :
    x ∈ l.drop n ↔ ∃ k, n ≤ k ∧ l[k]? = some x := by
  rw [List.mem_iff_getElem?]
  constructor
  · rintro ⟨j, hj⟩
    rw [List.getElem?_drop] at hj
    exact ⟨n + j, by omega, hj⟩
  · rintro ⟨k, hk, hx⟩
    refine ⟨k - n, ?_⟩
    rw [List.getElem?_drop]
    have : n + (k - n) = k := by omega
    rw [this]
    exact hx

theorem cstring_ok_iff (l : List Byte) : (∃ name, cstring l = .ok name) ↔ (0 : Byte) ∈ l := by
  induction l with
  | nil => simp [cstring]
  | cons b rest ih =>
    by_cases hb : b = 0
    · simp [cstring, hb]
    · have hb2 : ¬ (0 = b) := fun h => hb h.symm
      simp only [cstring, hb, if_false, List.mem_cons, hb2, false_or]
      rw [← ih]
      constructor
      · rintro ⟨name, h⟩
        cases hr : cstring rest with
        | error e => rw [hr] at h; simp [Except.map] at h
        | ok a => exact ⟨a, rfl⟩
      · rintro ⟨name, h⟩
        exact ⟨b :: name, by rw [h]; rfl⟩

theorem get_profile_username_ok_iff (s : NFSU2SaveFile) :
    (∃ name, s.get_profile_username = .ok name) ↔ ∃ k, 0xD225 ≤ k ∧ s.buffer[k]? = some 0 := by
  unfold get_profile_username
  rw [cstring_ok_iff, mem_drop_iff]

theorem car_slots_used_ok (s : NFSU2SaveFile) (hcover : slotBase 4 + 2 ≤ s.buffer.length) :
    ∃ n, s.car_slots_used = .ok n ∧ n ≤ 5 := by
  refine ⟨_, car_slots_used_eq s hcover, ?_⟩
  split_ifs <;> omega

theorem change_car_performance_ok (s : NFSU2SaveFile) (index : Int) (mode : CAR_PERFORMACE)
    (hcover : 0x5AEC + 5 * 0x7F2 ≤ s.buffer.length) :
    ∃ out, s.change_car_performance index mode = .ok out := by
  by_cases h : index < 0 ∨ 5 ≤ index
  · exact ⟨s, change_car_performance_bad_index s index mode h⟩
  · obtain ⟨i, rfl⟩ : ∃ i : Nat, index = (i : Int) := ⟨index.toNat, by omega⟩
    obtain ⟨out, hout, _⟩ := change_car_performance_spec s i mode (by omega) (by omega)
    exact ⟨out, hout⟩

/-- C9 (as amended): for every record that the constructor accepted and whose
size is at least `0xA16E`, `get_money`, `set_money`, `car_slots_used` and
`change_car_performance` (any index, either mode) access only offsets inside
`[0, size)`, and `get_profile_username` does so exactly when the buffer holds
a zero byte at some offset from `0xD225` on. -/
theorem C9_accessors_in_bounds (fs : FileSystem) (filename : String) (s : NFSU2SaveFile)
    (hload : load fs filename = .ok s) (hsize : 0xA16E ≤ s.size) :
    (∃ money, s.get_money = .ok money) ∧
    (∀ v, ∃ out, s.set_money v = .ok out) ∧
    (∃ n, s.car_slots_used = .ok n) ∧
    (∀ index mode, ∃ out, s.change_car_performance index mode = .ok out) ∧
    ((∃ name, s.get_profile_username = .ok name) ↔
      ∃ k, 0xD225 ≤ k ∧ k < s.size ∧ s.buffer[k]? = some 0) := by
  obtain ⟨b, _, _, _, hs⟩ := load_ok_inv fs filename s hload
  have hlen : s.buffer.length = s.size := by rw [hs]
  have hcover : 0xA16E ≤ s.buffer.length := by omega
  refine ⟨⟨_, get_money_eq s hcover⟩, fun v => ⟨_, set_money_eq s v hcover⟩, ?_, ?_, ?_⟩
  · obtain ⟨n, hn, _⟩ := car_slots_used_ok s (by simp only [slotBase]; omega)
    exact ⟨n, hn⟩
  · intro index mode
    exact change_car_performance_ok s index mode (by omega)
  · rw [get_profile_username_ok_iff]
    constructor
    · rintro ⟨k, hk, hz⟩
      have hlt : k < s.buffer.length := by
        by_contra hcon
        rw [List.getElem?_eq_none (by omega)] at hz
        cases hz
      exact ⟨k, hk, by omega, hz⟩
    · rintro ⟨k, hk, _, hz⟩
      exact ⟨k, hk, hz⟩

theorem sampleFile_valid : validHeader sampleFile := by
  refine ⟨by decide, ?_⟩
  rw [sampleFile_length]
  decide

theorem load_sampleFile : load (diskWith "save" sampleFile) "save" = .ok sampleSave := by
  rw [load_of_content _ "save" sampleFile (by simp [diskWith]) (by rw [sampleFile_length]; decide),
    if_pos sampleFile_valid, sampleFile_length]
  rfl

/-- Witness of C9 on the sample file. -/
theorem C9_accessors_in_bounds_witness :
    (∃ money, sampleSave.get_money = .ok money) ∧
    (∀ v, ∃ out, sampleSave.set_money v = .ok out) ∧
    (∃ n, sampleSave.car_slots_used = .ok n) ∧
    (∀ index mode, ∃ out, sampleSave.change_car_performance index mode = .ok out) ∧
    ((∃ name, sampleSave.get_profile_username = .ok name) ↔
      ∃ k, 0xD225 ≤ k ∧ k < sampleSave.size ∧ sampleSave.buffer[k]? = some 0) :=
  C9_accessors_in_bounds (diskWith "save" sampleFile) "save" sampleSave load_sampleFile
    (by decide)

/-- C9 (counterexample): the six byte file "20CM" 06 00 is accepted by the
constructor, and every accessor then indexes the buffer outside its six
bytes. -/
theorem C9_counterexample_six_byte_file :
    load (diskWith "save" tinyFile) "save" = .ok (NFSU2SaveFile.mk "save" 6 tinyFile) ∧
    (NFSU2SaveFile.mk "save" 6 tinyFile).get_money = .error .out_of_bounds ∧
    (NFSU2SaveFile.mk "save" 6 tinyFile).set_money 1 = .error .out_of_bounds ∧
    (NFSU2SaveFile.mk "save" 6 tinyFile).car_slots_used = .error .out_of_bounds ∧
    (NFSU2SaveFile.mk "save" 6 tinyFile).change_car_performance 0 .MAX_OUT
      = .error .out_of_bounds ∧
    (NFSU2SaveFile.mk "save" 6 tinyFile).get_profile_username = .error .out_of_bounds := by
  decide


/-! ## The session and the money field -/

theorem fill_error (buffer : List Byte) (p : Nat) (c : Byte) (n : Nat)
    (hn : 0 < n) (hout : buffer.length < p + n) :
    (List.range n).foldlM (fun buffer i => writeByte buffer (p + i) c) buffer
      = .error .out_of_bounds := by
  induction n with
  | zero => omega
  | succ n ih =>
    rw [List.range_succ, List.foldlM_append]
    by_cases hin : p + n ≤ buffer.length
    · obtain ⟨mid, hmid, hlen, _⟩ := fill_spec buffer p c n hin
      have : ¬ (p + n < mid.length) := by omega
      rw [hmid]
      simp [bind, Except.bind, writeByte, this]
    · by_cases h0 : n = 0
      · subst h0
        have : ¬ (p < buffer.length) := by omega
        simp [bind, Except.bind, pure, Except.pure, writeByte, this]
      · rw [ih (by omega) (by omega)]
        rfl

theorem change_car_performance_inv (s : NFSU2SaveFile) (index : Int) (mode : CAR_PERFORMACE)
    (out : NFSU2SaveFile) (h : s.change_car_performance index mode = .ok out) :
    out.filename = s.filename ∧ out.size = s.size ∧ out.buffer.length = s.buffer.length ∧
    ∀ k, (k < 0x5AEC ∨ 0x5AEC + 5 * 0x7F2 ≤ k) → out.buffer[k]? = s.buffer[k]? := by
  by_cases hbad : index < 0 ∨ 5 ≤ index
  · rw [change_car_performance_bad_index s index mode hbad] at h
    cases h
    exact ⟨rfl, rfl, rfl, fun _ _ => rfl⟩
  · obtain ⟨i, rfl⟩ : ∃ i : Nat, index = (i : Int) := ⟨index.toNat, by omega⟩
    have hi : i < 5 := by omega
    by_cases hcover : 0x5AEC + i * 0x7F2 + 0x94 + 0x44 ≤ s.buffer.length
    · obtain ⟨out2, hout2, hf, hs, hl, hget⟩ := change_car_performance_spec s i mode hi hcover
      rw [hout2] at h
      cases h
      refine ⟨hf, hs, hl, ?_⟩
      intro k hk
      rw [hget k, if_neg (by omega)]
    · exfalso
      have hguard : ¬ ((i : Int) < 0 ∨ (i : Int) ≥ (NUM_CAR_SLOTS : Int)) := by
        simp only [NUM_CAR_SLOTS]; omega
      unfold change_car_performance at h
      rw [if_neg hguard] at h
      simp only [Int.toNat_ofNat, START_INDEX, SIZE_CAR_SLOT, TOTAL_PARTS] at h
      rw [fill_error s.buffer _ _ 0x44 (by decide) (by omega)] at h
      cases h

theorem get_money_congr (s t : NFSU2SaveFile) (hlen : t.buffer.length = s.buffer.length)
    (hbytes : ∀ k, 0xA16A ≤ k → k < 0xA16E → t.buffer[k]? = s.buffer[k]?) :
    t.get_money = s.get_money := by
  have hread : (t.buffer.drop 0xA16A).take 4 = (s.buffer.drop 0xA16A).take 4 := by
    apply List.ext_getElem?
    intro k
    rw [getElem?_take_drop, getElem?_take_drop]
    by_cases hk : k < 4
    · rw [if_pos hk, if_pos hk]
      exact hbytes _ (by omega) (by omega)
    · rw [if_neg hk, if_neg hk]
  unfold get_money readBytes
  rw [hlen, hread]

theorem applyOption_inv (s : NFSU2SaveFile) (i option : Int) (out : NFSU2SaveFile)
    (h : applyOption s i option = .ok out) :
    out.buffer.length = s.buffer.length ∧
    ∀ k, (k < 0x5AEC ∨ 0x5AEC + 5 * 0x7F2 ≤ k) → out.buffer[k]? = s.buffer[k]? := by
  unfold applyOption at h
  by_cases h0 : option = 0
  · have h1 : ¬ (option = 1) := by omega
    simp only [h0, true_or, if_true, bind, Except.bind] at h
    cases hc : s.change_car_performance (toInt32 i) .NILL_OUT with
    | error e => rw [hc] at h; simp at h
    | ok mid =>
      rw [hc] at h
      simp [pure, Except.pure] at h
      subst h
      obtain ⟨_, _, hl, hk⟩ := change_car_performance_inv s _ _ mid hc
      exact ⟨hl, hk⟩
  · by_cases h1 : option = 1
    · simp only [h1, or_true, if_true, bind, Except.bind, pure, Except.pure] at h
      simp at h
      obtain ⟨_, _, hl, hk⟩ := change_car_performance_inv s _ _ out h
      exact ⟨hl, hk⟩
    · simp only [h0, h1, or_self, if_false, pure, Except.pure] at h
      cases h
      exact ⟨rfl, fun _ _ => rfl⟩

theorem carLoop_inv (remaining : Nat) (i : Int) (s : NFSU2SaveFile) (stdin : Stdin)
    (out : NFSU2SaveFile) (rest : Stdin) (h : carLoop remaining i s stdin = .ok (out, rest)) :
    out.buffer.length = s.buffer.length ∧
    ∀ k, (k < 0x5AEC ∨ 0x5AEC + 5 * 0x7F2 ≤ k) → out.buffer[k]? = s.buffer[k]? := by
  induction remaining generalizing i s stdin with
  | zero =>
    simp only [carLoop, pure, Except.pure] at h
    cases h
    exact ⟨rfl, fun _ _ => rfl⟩
  | succ n ih =>
    simp only [carLoop, bind, Except.bind] at h
    cases hp : promptLong stdin with
    | error e => rw [hp] at h; simp at h
    | ok r =>
      obtain ⟨answer, stdin2⟩ := r
      rw [hp] at h
      simp only at h
      cases ha : applyOption s i (toInt32 answer) with
      | error e => rw [ha] at h; simp at h
      | ok mid =>
        rw [ha] at h
        simp only at h
        obtain ⟨hl1, hk1⟩ := applyOption_inv s i _ mid ha
        obtain ⟨hl2, hk2⟩ := ih (i + 1) mid stdin2 h
        exact ⟨by rw [hl2, hl1], fun k hk => by rw [hk2 k hk, hk1 k hk]⟩

/-- What the session does to the money field: with `answer` the first line
that `std::stol` accepts, the money is the `int32_t` made of `answer` when that
is positive, and is unchanged otherwise. -/
theorem session_money (s : NFSU2SaveFile) (stdin : Stdin) (out : NFSU2SaveFile) (rest : Stdin)
    (h : session s stdin = .ok (out, rest)) :
    ∃ answer rest2, promptLong stdin = .ok (answer, rest2) ∧
      out.get_money = if 0 < toInt32 answer then .ok (toInt32 answer) else s.get_money := by
  simp only [session, bind, Except.bind] at h
  cases hpr : s.print with
  | error e => rw [hpr] at h; simp at h
  | ok printed =>
    rw [hpr] at h
    simp only at h
    cases hp : promptLong stdin with
    | error e => rw [hp] at h; simp at h
    | ok r =>
      obtain ⟨answer, stdin2⟩ := r
      rw [hp] at h
      simp only at h
      refine ⟨answer, stdin2, rfl, ?_⟩
      by_cases hpos : 0 < toInt32 answer
      · have hcond : toInt32 answer ≠ -1 ∧ toInt32 answer > 0 := ⟨by omega, hpos⟩
        rw [if_pos hcond] at h
        rw [if_pos hpos]
        cases hs : s.set_money (toInt32 answer) with
        | error e => rw [hs] at h; simp at h
        | ok mid =>
          rw [hs] at h
          simp only at h
          cases hc : mid.car_slots_used with
          | error e => rw [hc] at h; simp at h
          | ok used =>
            rw [hc] at h
            simp only at h
            obtain ⟨hl, hk⟩ := carLoop_inv used 0 mid stdin2 out rest h
            have hcover : 0xA16E ≤ s.buffer.length := by
              by_contra hcon
              have : ¬ (0xA16A + (int32_bytes (toInt32 answer)).length ≤ s.buffer.length) := by
                rw [int32_bytes_length]; omega
              simp [set_money, writeBytes, this, bind, Except.bind] at hs
            obtain ⟨mid2, hmid2, hget⟩ := get_money_after_set_money s (toInt32 answer) hcover
              (toInt32_range answer).1 (toInt32_range answer).2
            rw [hs] at hmid2
            cases hmid2
            rw [get_money_congr mid out hl (fun k h1 _ => hk k (Or.inr (by omega))), hget]
      · have hcond : ¬ (toInt32 answer ≠ -1 ∧ toInt32 answer > 0) := fun hc => hpos hc.2
        rw [if_neg hcond] at h
        rw [if_neg hpos]
        simp only [pure, Except.pure] at h
        cases hc : s.car_slots_used with
        | error e => rw [hc] at h; simp at h
        | ok used =>
          rw [hc] at h
          simp only at h
          obtain ⟨hl, hk⟩ := carLoop_inv used 0 s stdin2 out rest h
          exact get_money_congr s out hl (fun k h1 _ => hk k (Or.inr (by omega)))


theorem cstring_of_head_zero (l : List Byte) (h : l[0]? = some 0) : cstring l = .ok [] := by
  cases l with
  | nil => simp at h
  | cons b rest =>
    simp only [List.getElem?_cons_zero, Option.some.injEq] at h
    simp [cstring, h]

theorem car_slots_used_none (s : NFSU2SaveFile) (hcover : 0x5AEC + 5 * 0x7F2 ≤ s.buffer.length)
    (hempty : ∀ k, 0x5AEC ≤ k → k < 0x5AEC + 5 * 0x7F2 → s.buffer[k]? = some 0) :
    s.car_slots_used = .ok 0 := by
  have hno : ∀ i, i < 5 → ¬ slotUsed s.buffer i := by
    intro i hi
    unfold slotUsed slotBase
    rw [not_not]
    exact ⟨hempty _ (by omega) (by omega), hempty _ (by omega) (by omega)⟩
  rw [car_slots_used_eq s (by simp only [slotBase]; omega)]
  simp [hno 0, hno 1, hno 2, hno 3, hno 4]

theorem session_positive_no_slots (s : NFSU2SaveFile) (answer : Int) (rest : Stdin)
    (hcover : 0xA16E ≤ s.buffer.length)
    (hname : ∃ name, s.get_profile_username = .ok name)
    (hempty : ∀ k, 0x5AEC ≤ k → k < 0x5AEC + 5 * 0x7F2 → s.buffer[k]? = some 0)
    (hpos : 0 < toInt32 answer) :
    ∃ out, session s (some answer :: rest) = .ok (out, rest) ∧
      out.get_money = .ok (toInt32 answer) := by
  obtain ⟨name, hname⟩ := hname
  obtain ⟨out, hset, _, _, hlen, _, hframe, _⟩ := set_money_spec s (toInt32 answer) hcover
  obtain ⟨out2, hset2, hget⟩ := get_money_after_set_money s (toInt32 answer) hcover
    (toInt32_range answer).1 (toInt32_range answer).2
  rw [hset] at hset2
  cases hset2
  have hused0 : s.car_slots_used = .ok 0 := car_slots_used_none s (by omega) hempty
  have hused : out.car_slots_used = .ok 0 := by
    apply car_slots_used_none out (by rw [hlen]; omega)
    intro k h1 h2
    rw [hframe k (by omega)]
    exact hempty k h1 h2
  refine ⟨out, ?_, hget⟩
  have hcond : toInt32 answer ≠ -1 ∧ toInt32 answer > 0 := ⟨by omega, hpos⟩
  simp only [session, print, bind, Except.bind, hname, get_money_eq s hcover, hused0, promptLong,
    if_pos hcond, hset, hused, carLoop, pure, Except.pure]

theorem sampleSave_cover : 0xA16E ≤ sampleSave.buffer.length := by
  show 0xA16E ≤ sampleFile.length
  rw [sampleFile_length]
  decide

theorem sampleSave_money : sampleSave.get_money = .ok 0 := by
  rw [get_money_eq sampleSave sampleSave_cover]
  show Except.ok (int32_of_bytes ((sampleFile.drop 0xA16A).take 4)) = _
  rw [sampleFile_zeros 0xA16A 4 (by decide) (by decide)]
  decide

theorem sampleSave_username : sampleSave.get_profile_username = .ok [] := by
  unfold get_profile_username
  apply cstring_of_head_zero
  rw [List.getElem?_drop]
  exact sampleFile_zero _ (by decide) (by decide)

/-- C10 (the code at the failing input): on the sample record, whose money is
0, the answer `-4294967291`, a value of a 64-bit `long` that is `<= 0`, is
stored in the `int32_t new_money` as 5, passes the test `new_money > 0`, and
the session ends with money 5. -/
theorem C10_nonpositive_answer_changes_money :
    sampleSave.get_money = .ok 0 ∧ (-4294967291 : Int) ≤ 0 ∧
    ∃ out, session sampleSave [some (-4294967291)] = .ok (out, []) ∧ out.get_money = .ok 5 :=
  ⟨sampleSave_money, by decide,
    session_positive_no_slots sampleSave (-4294967291) [] sampleSave_cover
      ⟨[], sampleSave_username⟩ (fun k h1 h2 => sampleFile_zero k (by omega) (by omega))
      (by decide)⟩

/-! ## The performance prompts -/

theorem bind_pure_except (x : Except Error NFSU2SaveFile) :
    (x >>= fun a => (pure a : Except Error NFSU2SaveFile)) = x := by
  cases x <;> rfl

theorem applyOption_zero (s : NFSU2SaveFile) (i : Int) :
    applyOption s i 0 = s.change_car_performance (toInt32 i) .NILL_OUT := by
  unfold applyOption
  simp only [true_or, if_true, zero_ne_one, if_false]
  exact bind_pure_except _

theorem applyOption_one (s : NFSU2SaveFile) (i : Int) :
    applyOption s i 1 = s.change_car_performance (toInt32 i) .MAX_OUT := by
  unfold applyOption
  simp only [or_true, if_true, one_ne_zero, if_false]
  rfl

theorem applyOption_other (s : NFSU2SaveFile) (i option : Int) (h0 : option ≠ 0)
    (h1 : option ≠ 1) : applyOption s i option = .ok s := by
  unfold applyOption
  simp only [h0, h1, or_self, if_false]
  rfl

theorem carLoop_cons (remaining : Nat) (i : Int) (s : NFSU2SaveFile) (answer : Int)
    (rest : Stdin) :
    carLoop (remaining + 1) i s (some answer :: rest) =
      (applyOption s i (toInt32 answer) >>= fun s2 => carLoop remaining (i + 1) s2 rest) := by
  simp only [carLoop, promptLong, bind, Except.bind]

theorem session_keep_money (s : NFSU2SaveFile) (answer : Int) (rest : Stdin) (used : Nat)
    (hcover : 0xA16E ≤ s.buffer.length)
    (hname : ∃ name, s.get_profile_username = .ok name)
    (hused : s.car_slots_used = .ok used)
    (hkeep : ¬ 0 < toInt32 answer) :
    session s (some answer :: rest) = carLoop used 0 s rest := by
  obtain ⟨name, hname⟩ := hname
  have hcond : ¬ (toInt32 answer ≠ -1 ∧ toInt32 answer > 0) := fun hc => hkeep hc.2
  simp only [session, print, bind, Except.bind, hname, get_money_eq s hcover, hused, promptLong,
    if_neg hcond, pure, Except.pure]

theorem session_first_slot (s : NFSU2SaveFile) (money answer : Int) (mode : CAR_PERFORMACE)
    (hcover : 0xA16E ≤ s.buffer.length)
    (hname : ∃ name, s.get_profile_username = .ok name)
    (hused : s.car_slots_used = .ok 1)
    (hkeep : ¬ 0 < toInt32 money)
    (hanswer : toInt32 answer = if mode = .MAX_OUT then 1 else 0) :
    ∃ out, session s [some money, some answer] = .ok (out, []) ∧
      ∀ k, out.buffer[k]? =
        if 0x5AEC + 0x94 ≤ k ∧ k < 0x5AEC + 0x94 + 0x44 then some mode.toByte
        else s.buffer[k]? := by
  obtain ⟨out, hout, _, _, _, hget⟩ := change_car_performance_spec s 0 mode (by decide) (by omega)
  have hzero : toInt32 0 = ((0 : Nat) : Int) := by decide
  have hstep : applyOption s 0 (toInt32 answer) = .ok out := by
    rw [hanswer]
    cases mode
    · simp only [reduceCtorEq, if_false]
      rw [applyOption_zero, hzero, hout]
    · simp only [if_true]
      rw [applyOption_one, hzero, hout]
  refine ⟨out, ?_, ?_⟩
  · rw [session_keep_money s money _ 1 hcover hname hused hkeep, carLoop_cons, hstep]
    rfl
  · intro k
    rw [hget k]

theorem car_slots_used_one (s : NFSU2SaveFile) (j : Nat) (hj : j < 5)
    (hcover : 0x5AEC + 5 * 0x7F2 ≤ s.buffer.length)
    (hused : ∀ i, i < 5 → (slotUsed s.buffer i ↔ i = j)) :
    s.car_slots_used = .ok 1 := by
  rw [car_slots_used_eq s (by simp only [slotBase]; omega)]
  have h0 := hused 0 (by decide)
  have h1 := hused 1 (by decide)
  have h2 := hused 2 (by decide)
  have h3 := hused 3 (by decide)
  have h4 := hused 4 (by decide)
  simp only [h0, h1, h2, h3, h4]
  interval_cases j <;> simp

theorem tunedFile_length : tunedFile.length = 0xE000 := by
  simp only [tunedFile, List.length_set, sampleFile_length]

theorem tunedFile_getElem? (k : Nat) (h6 : 6 ≤ k) (hk : k < 0xE000) :
    tunedFile[k]? =
      if k = 0x5AEC + 0x94 then some 2 else if k = 0x5AEC then some 1 else some 0 := by
  unfold tunedFile
  rw [List.getElem?_set, List.getElem?_set, sampleFile_zero k h6 hk]
  simp only [List.length_set, sampleFile_length]
  by_cases h3 : 0x5AEC + 0x94 = k
  · subst h3; simp
  · have h3b : ¬ (k = 0x5AEC + 0x94) := fun h => h3 h.symm
    rw [if_neg h3, if_neg h3b]
    by_cases h1 : 0x5AEC = k
    · subst h1; simp
    · have h1b : ¬ (k = 0x5AEC) := fun h => h1 h.symm
      rw [if_neg h1, if_neg h1b]

theorem tunedFile_used (i : Nat) (hi : i < 5) : slotUsed tunedFile i ↔ i = 0 := by
  unfold slotUsed slotBase
  interval_cases i <;> simp [tunedFile_getElem?]

theorem tunedSave_used : tunedSave.car_slots_used = .ok 1 :=
  car_slots_used_one tunedSave 0 (by decide)
    (by show _ ≤ tunedFile.length; rw [tunedFile_length]; decide) tunedFile_used

theorem tunedSave_username : ∃ name, tunedSave.get_profile_username = .ok name := by
  refine ⟨[], ?_⟩
  unfold get_profile_username
  apply cstring_of_head_zero
  rw [List.getElem?_drop]
  show tunedFile[0xD225 + 0]? = some 0
  rw [tunedFile_getElem? _ (by decide) (by decide)]
  decide

theorem applyOption_int32 (s : NFSU2SaveFile) (i answer : Int)
    (hlo : -2 ^ 31 ≤ answer) (hhi : answer < 2 ^ 31) :
    applyOption s i (toInt32 answer) =
      if answer = 0 then s.change_car_performance (toInt32 i) .NILL_OUT
      else if answer = 1 then s.change_car_performance (toInt32 i) .MAX_OUT
      else .ok s := by
  rw [toInt32_of_range answer hlo hhi]
  by_cases h0 : answer = 0
  · rw [if_pos h0, h0, applyOption_zero]
  · by_cases h1 : answer = 1
    · rw [if_neg h0, if_pos h1, h1, applyOption_one]
    · rw [if_neg h0, if_neg h1, applyOption_other s i answer h0 h1]

/-- C11 (the code at the failing input): slot 0 of the record is in use and
one of its performance bytes is 2.  The answer `4294967296`, a value of a
64-bit `long` that is neither 0 nor 1, is stored in the `int32_t option` as 0,
and the prompt nills the block: the byte becomes 0. -/
theorem C11_other_answer_nills_block :
    tunedSave.buffer[0x5AEC + 0x94]? = some 2 ∧
    (4294967296 : Int) ≠ 0 ∧ (4294967296 : Int) ≠ 1 ∧
    ∃ out, session tunedSave [some (-1), some 4294967296] = .ok (out, []) ∧
      out.buffer[0x5AEC + 0x94]? = some 0 := by
  obtain ⟨out, hsession, hget⟩ := session_first_slot tunedSave (-1) 4294967296 .NILL_OUT
    (by show _ ≤ tunedFile.length; rw [tunedFile_length]; decide) tunedSave_username
    tunedSave_used (by decide) (by decide)
  refine ⟨?_, by decide, by decide, out, hsession, ?_⟩
  · show tunedFile[0x5AEC + 0x94]? = some 2
    rw [tunedFile_getElem? _ (by decide) (by decide)]
    decide
  · rw [hget]
    decide

theorem secondSlotFile_length : secondSlotFile.length = 0xE000 := by
  simp only [secondSlotFile, List.length_set, sampleFile_length]

theorem secondSlotFile_getElem? (k : Nat) (h6 : 6 ≤ k) (hk : k < 0xE000) :
    secondSlotFile[k]? = if k = 0x5AEC + 0x7F2 then some 1 else some 0 := by
  unfold secondSlotFile
  rw [List.getElem?_set, sampleFile_zero k h6 hk]
  simp only [sampleFile_length]
  by_cases h1 : 0x5AEC + 0x7F2 = k
  · subst h1; simp
  · have h1b : ¬ (k = 0x5AEC + 0x7F2) := fun h => h1 h.symm
    rw [if_neg h1, if_neg h1b]

theorem secondSlotFile_used (i : Nat) (hi : i < 5) : slotUsed secondSlotFile i ↔ i = 1 := by
  unfold slotUsed slotBase
  interval_cases i <;> simp [secondSlotFile_getElem?]

theorem secondSlotSave_used : secondSlotSave.car_slots_used = .ok 1 :=
  car_slots_used_one secondSlotSave 1 (by decide)
    (by show _ ≤ secondSlotFile.length; rw [secondSlotFile_length]; decide) secondSlotFile_used

theorem secondSlotSave_username : ∃ name, secondSlotSave.get_profile_username = .ok name := by
  refine ⟨[], ?_⟩
  unfold get_profile_username
  apply cstring_of_head_zero
  rw [List.getElem?_drop]
  show secondSlotFile[0xD225 + 0]? = some 0
  rw [secondSlotFile_getElem? _ (by decide) (by decide)]
  decide

theorem secondSlotFile_valid : validHeader secondSlotFile := by
  refine ⟨by decide, ?_⟩
  rw [secondSlotFile_length]
  decide

theorem load_secondSlotFile :
    load (diskWith "save" secondSlotFile) "save" = .ok secondSlotSave := by
  rw [load_of_content _ "save" secondSlotFile (by simp [diskWith])
    (by rw [secondSlotFile_length]; decide), if_pos secondSlotFile_valid, secondSlotFile_length]
  rfl

/-- C13 (the code at the failing input): in the accepted file slot 0 is empty
and slot 1 is the only slot in use.  `CAR_SLOTS_USED` is 1, the single prompt
is for index 0, and the answer 1 maxes the performance block of the empty
slot 0 while the block of slot 1, the slot in use, is never offered and keeps
its bytes. -/
theorem C13_unused_slot_is_modified :
    load (diskWith "save" secondSlotFile) "save" = .ok secondSlotSave ∧
    ¬ slotUsed secondSlotSave.buffer 0 ∧ slotUsed secondSlotSave.buffer 1 ∧
    secondSlotSave.buffer[0x5AEC + 0x94]? = some 0 ∧
    ∃ out, session secondSlotSave [some (-1), some 1] = .ok (out, []) ∧
      out.buffer[0x5AEC + 0x94]? = some 1 ∧
      out.buffer[0x5AEC + 0x7F2 + 0x94]? = some 0 := by
  obtain ⟨out, hsession, hget⟩ := session_first_slot secondSlotSave (-1) 1 .MAX_OUT
    (by show _ ≤ secondSlotFile.length; rw [secondSlotFile_length]; decide)
    secondSlotSave_username secondSlotSave_used (by decide) (by decide)
  refine ⟨load_secondSlotFile, ?_, ?_, ?_, out, hsession, ?_, ?_⟩
  · exact fun h => absurd ((secondSlotFile_used 0 (by decide)).mp h) (by decide)
  · exact (secondSlotFile_used 1 (by decide)).mpr rfl
  · show secondSlotFile[0x5AEC + 0x94]? = some 0
    rw [secondSlotFile_getElem? _ (by decide) (by decide)]
    decide
  · rw [hget]
    decide
  · rw [hget, if_neg (by decide)]
    show secondSlotFile[0x5AEC + 0x7F2 + 0x94]? = some 0
    rw [secondSlotFile_getElem? _ (by decide) (by decide)]
    decide

/-! ## A failed construction -/

theorem load_congr (fs1 fs2 : FileSystem) (path : String)
    (h : fs2.content path = fs1.content path) : load fs2 path = load fs1 path := by
  unfold load
  rw [h]

theorem backup_frame (fs fs2 : FileSystem) (path : String)
    (h : backup fs path (path ++ ".bak") = .ok fs2) (p : String) (hp : p ≠ path ++ ".bak") :
    fs2.content p = fs.content p := by
  unfold backup at h
  cases hc : fs.content path with
  | none => rw [hc] at h; cases h
  | some data =>
    rw [hc] at h
    have h2 := Except.ok.inj h
    rw [← h2]
    by_cases hw : fs.writable (path ++ ".bak") = true
    · simp [hw, FileSystem.write, hp]
    · simp [hw]

theorem memcmp_error (buffer : List Byte) (off : Nat) (obj : List Byte) (n : Nat) (e : Error)
    (h : memcmp buffer off obj n = .error e) : e = .out_of_bounds := by
  by_cases hin : off + n ≤ buffer.length
  · simp [memcmp, readBytes, hin, bind, Except.bind, pure, Except.pure] at h
  · rw [memcmp_out_of_bounds buffer off obj n (by omega)] at h
    exact (Except.error.inj h).symm

theorem load_error_kinds (fs : FileSystem) (path : String) (b : List Byte) (e : Error)
    (hfile : fs.content path = some b) (hfail : load fs path = .error e) :
    e = .not_a_valid_save_file ∨ e = .out_of_bounds := by
  simp only [load, hfile, bind, Except.bind] at hfail
  cases h1 : memcmp b 0 (leBytes 4 HEADER_MAGIC_ID) 4 with
  | error e1 =>
    rw [h1] at hfail
    have := memcmp_error _ _ _ _ _ h1
    subst this
    exact Or.inr (Except.error.inj hfail).symm
  | ok c1 =>
    rw [h1] at hfail
    simp only at hfail
    by_cases hc1 : c1 ≠ 0
    · rw [if_pos hc1] at hfail
      exact Or.inl (Except.error.inj hfail).symm
    · rw [if_neg hc1] at hfail
      cases h2 : memcmp b 4 (leBytes 2 b.length) 2 with
      | error e2 =>
        rw [h2] at hfail
        have := memcmp_error _ _ _ _ _ h2
        subst this
        exact Or.inr (Except.error.inj hfail).symm
      | ok c2 =>
        rw [h2] at hfail
        simp only at hfail
        by_cases hc2 : c2 ≠ 0
        · rw [if_pos hc2] at hfail
          exact Or.inl (Except.error.inj hfail).symm
        · rw [if_neg hc2] at hfail
          cases hfail

theorem main_load_fails (argv : List String) (fs : FileSystem) (stdin : Stdin) (path : String)
    (e : Error) (hpath : argv[1]? = some path) (hfail : load fs path = .error e)
    (he : e = .cannot_be_read ∨ e = .not_a_valid_save_file) :
    ∃ code fs2, main argv fs stdin = .ok (code, fs2) ∧ code ≠ 0 ∧
      fs2.content path = fs.content path ∧
      ∀ p, p ≠ path ++ ".bak" → fs2.content p = fs.content p := by
  by_cases hargc : argv.length = 1 ∨ 3 < argv.length
  · exact ⟨1, fs, main_usage argv fs stdin hargc, by decide, rfl, fun _ _ => rfl⟩
  · have hlen : 1 < argv.length := by
      by_contra hcon
      rw [List.getElem?_eq_none (by omega)] at hpath
      cases hpath
    have hargc2 : argv.length = 2 ∨ argv.length = 3 := by omega
    cases hfile : fs.content path with
    | none =>
      exact ⟨2, fs, main_missing argv fs stdin path hargc2 hpath hfile, by decide, hfile,
        fun _ _ => rfl⟩
    | some b =>
      have hnot : e = .not_a_valid_save_file := by
        rcases load_error_kinds fs path b e hfile hfail with h | h
        · exact h
        · rcases he with he | he
          · rw [he] at h; cases h
          · exact he
      subst hnot
      unfold main
      simp only [gt_iff_lt]
      rw [if_neg hargc]
      simp only [hpath, file_exists, hfile, Option.isSome_some, not_true_eq_false, if_false]
      by_cases hb : argv.length = 3 ∧ (argv[2]?.map is_dash_b) = some true
      · rw [if_pos hb]
        have hbk : backup fs path (path ++ ".bak") =
            .ok (if fs.writable (path ++ ".bak") then fs.write (path ++ ".bak") b else fs) := by
          simp [backup, hfile]
        have hc := backup_content fs _ path hbk
        have hfr := backup_frame fs _ path hbk
        rw [hbk]
        simp only [bind, Except.bind]
        rw [load_congr fs _ path hc, hfail]
        exact ⟨2, _, rfl, by decide, by rw [hc, hfile], hfr⟩
      · rw [if_neg hb]
        simp only [bind, Except.bind, pure, Except.pure]
        rw [hfail]
        exact ⟨2, fs, rfl, by decide, hfile, fun _ _ => rfl⟩

/-- C12: when the constructor fails, because the file cannot be read or
because the header check rejects it, `main` returns a non-zero exit code and
the save file holds what it held before: the destructor does not run for a
record whose construction failed.  The only file that can differ afterwards is
the backup copy. -/
theorem C12_failed_load_writes_nothing (argv : List String) (fs : FileSystem) (stdin : Stdin)
    (path : String) (e : Error) (hpath : argv[1]? = some path)
    (hfail : load fs path = .error e)
    (he : e = .cannot_be_read ∨ e = .not_a_valid_save_file) :
    ∃ code fs2, main argv fs stdin = .ok (code, fs2) ∧ code ≠ 0 ∧
      fs2.content path = fs.content path ∧
      ∀ p, p ≠ path ++ ".bak" → fs2.content p = fs.content p :=
  main_load_fails argv fs stdin path e hpath hfail he

/-- Witness of C12: a file with a wrong header, with the `-b` flag, and a
missing file. -/
theorem C12_failed_load_writes_nothing_witness :
    (∃ code fs2, main ["NFSU2SaveE", "save", "-b"] (diskWith "save" badFile) [] = .ok (code, fs2) ∧
      code ≠ 0 ∧ fs2.content "save" = (diskWith "save" badFile).content "save" ∧
      ∀ p, p ≠ "save" ++ ".bak" → fs2.content p = (diskWith "save" badFile).content p) ∧
    (∃ code fs2, main ["NFSU2SaveE", "save"] (diskWith "other" badFile) [] = .ok (code, fs2) ∧
      code ≠ 0 ∧ fs2.content "save" = (diskWith "other" badFile).content "save" ∧
      ∀ p, p ≠ "save" ++ ".bak" → fs2.content p = (diskWith "other" badFile).content p) :=
  ⟨C12_failed_load_writes_nothing ["NFSU2SaveE", "save", "-b"] (diskWith "save" badFile) []
      "save" .not_a_valid_save_file (by decide) (by decide) (by decide),
   C12_failed_load_writes_nothing ["NFSU2SaveE", "save"] (diskWith "other" badFile) []
      "save" .cannot_be_read (by decide) (by decide) (by decide)⟩

/-! ## The header under mutation -/

theorem mutator_step (s : NFSU2SaveFile) (op : Mutator) (hcover : op.touchedEnd ≤ s.buffer.length) :
    ∃ out, op.apply s = .ok out ∧ out.filename = s.filename ∧ out.size = s.size ∧
      out.buffer.length = s.buffer.length ∧ ∀ k, k < 6 → out.buffer[k]? = s.buffer[k]? := by
  cases op with
  | money v =>
    obtain ⟨out, hout, hf, hs, hl, _, hframe, _⟩ := set_money_spec s v hcover
    exact ⟨out, hout, hf, hs, hl, fun k hk => hframe k (by omega)⟩
  | performance index mode =>
    by_cases hbad : index < 0 ∨ 5 ≤ index
    · exact ⟨s, change_car_performance_bad_index s index mode hbad, rfl, rfl, rfl,
        fun _ _ => rfl⟩
    · simp only [Mutator.touchedEnd, if_neg hbad] at hcover
      obtain ⟨i, rfl⟩ : ∃ i : Nat, index = (i : Int) := ⟨index.toNat, by omega⟩
      rw [Int.toNat_ofNat] at hcover
      obtain ⟨out, hout, hf, hs, hl, hget⟩ :=
        change_car_performance_spec s i mode (by omega) hcover
      refine ⟨out, hout, hf, hs, hl, ?_⟩
      intro k hk
      rw [hget k, if_neg (by omega)]

theorem mutators_run (ops : List Mutator) (s : NFSU2SaveFile)
    (hcover : ∀ op, op ∈ ops → op.touchedEnd ≤ s.buffer.length) :
    ∃ out, applyMutators ops s = .ok out ∧ out.filename = s.filename ∧ out.size = s.size ∧
      out.buffer.length = s.buffer.length ∧ ∀ k, k < 6 → out.buffer[k]? = s.buffer[k]? := by
  induction ops generalizing s with
  | nil => exact ⟨s, rfl, rfl, rfl, rfl, fun _ _ => rfl⟩
  | cons op rest ih =>
    obtain ⟨mid, hmid, hf, hs, hl, hk⟩ := mutator_step s op (hcover op (List.mem_cons_self _ _))
    obtain ⟨out, hout, hf2, hs2, hl2, hk2⟩ := ih mid (fun o ho => by
      rw [hl]; exact hcover o (List.mem_cons_of_mem _ ho))
    refine ⟨out, ?_, by rw [hf2, hf], by rw [hs2, hs], by rw [hl2, hl],
      fun k h6 => by rw [hk2 k h6, hk k h6]⟩
    unfold applyMutators at hout ⊢
    rw [List.foldlM_cons]
    show (Mutator.apply s op >>= fun s2 => List.foldlM (fun s op => op.apply s) s2 rest) = _
    rw [hmid]
    exact hout

theorem take_congr (b1 b2 : List Byte) (n : Nat) (h : ∀ k, k < n → b2[k]? = b1[k]?) :
    b2.take n = b1.take n := by
  apply List.ext_getElem?
  intro k
  rw [List.getElem?_take, List.getElem?_take]
  by_cases hk : k < n
  · rw [if_pos hk, if_pos hk, h k hk]
  · rw [if_neg hk, if_neg hk]

theorem validHeader_congr (b1 b2 : List Byte) (hlen : b2.length = b1.length)
    (h : ∀ k, k < 6 → b2[k]? = b1[k]?) (hvalid : validHeader b1) : validHeader b2 := by
  obtain ⟨hmagic, hsize⟩ := hvalid
  refine ⟨?_, ?_⟩
  · rw [take_congr b1 b2 4 (fun k hk => h k (by omega))]
    exact hmagic
  · rw [hlen, ← hsize]
    apply List.ext_getElem?
    intro k
    rw [getElem?_take_drop, getElem?_take_drop]
    by_cases hk : k < 2
    · rw [if_pos hk, if_pos hk, h _ (by omega)]
    · rw [if_neg hk, if_neg hk]

theorem flush_then_load (s : NFSU2SaveFile) (fs : FileSystem)
    (hsize : s.buffer.length = s.size) (hvalid : validHeader s.buffer)
    (hw : fs.writable s.filename = true) :
    ∃ fs2, s.flush fs = .ok fs2 ∧ fs2.content s.filename = some s.buffer ∧
      load fs2 s.filename = .ok s := by
  have hread : readBytes s.buffer 0 s.size = .ok s.buffer := by
    simp [readBytes, ← hsize]
  have hcontent : (fs.write s.filename s.buffer).content s.filename = some s.buffer := by
    simp [FileSystem.write]
  refine ⟨fs.write s.filename s.buffer, ?_, hcontent, ?_⟩
  · unfold flush
    rw [if_pos hw, hread]
    rfl
  · rw [load_of_content _ s.filename s.buffer hcontent (validHeader_length _ hvalid),
      if_pos hvalid, hsize]

/-- C14: the header invariant is preserved by every mutator.  For every record
whose buffer has `size` bytes, starts with "20CM" and holds the low 16 bits of
`size` in bytes `[4,6)`, and every sequence of calls of `set_money` and
`change_car_performance` whose touched offsets the buffer covers, the calls
succeed and leave the file name, `size` and bytes `[0,6)` unchanged; the header
condition still holds, and the buffer written by the destructor is accepted
again by the constructor, which rebuilds the same record. -/
theorem C14_mutators_preserve_header (s : NFSU2SaveFile) (ops : List Mutator)
    (hsize : s.buffer.length = s.size) (hvalid : validHeader s.buffer)
    (hcover : ∀ op, op ∈ ops → op.touchedEnd ≤ s.size) :
    ∃ out, applyMutators ops s = .ok out ∧ out.filename = s.filename ∧ out.size = s.size ∧
      out.buffer.take 6 = s.buffer.take 6 ∧ validHeader out.buffer ∧
      ∀ fs : FileSystem, fs.writable s.filename = true →
        ∃ fs2, out.flush fs = .ok fs2 ∧ fs2.content s.filename = some out.buffer ∧
          load fs2 s.filename = .ok out := by
  obtain ⟨out, hout, hf, hs, hl, hk⟩ := mutators_run ops s (fun op hop => by
    rw [hsize]; exact hcover op hop)
  have hvalid2 : validHeader out.buffer := validHeader_congr s.buffer out.buffer hl hk hvalid
  refine ⟨out, hout, hf, hs, take_congr _ _ 6 hk, hvalid2, ?_⟩
  intro fs hw
  rw [← hf] at hw ⊢
  exact flush_then_load out fs (by rw [hl, hsize, hs]) hvalid2 hw

/-- Witness of C14: three calls on the sample record, one of them with an
index outside `[0,5)`. -/
theorem C14_mutators_preserve_header_witness :
    ∃ out, applyMutators [.money 5000, .performance 2 .MAX_OUT, .performance 7 .NILL_OUT]
        sampleSave = .ok out ∧
      out.filename = sampleSave.filename ∧ out.size = sampleSave.size ∧
      out.buffer.take 6 = sampleSave.buffer.take 6 ∧ validHeader out.buffer ∧
      ∀ fs : FileSystem, fs.writable sampleSave.filename = true →
        ∃ fs2, out.flush fs = .ok fs2 ∧ fs2.content sampleSave.filename = some out.buffer ∧
          load fs2 sampleSave.filename = .ok out :=
  C14_mutators_preserve_header sampleSave
    [.money 5000, .performance 2 .MAX_OUT, .performance 7 .NILL_OUT]
    sampleFile_length sampleFile_valid (by decide)

/-! ## The profile name -/

theorem cstring_first_zero (l : List Byte) (n : Nat) (hzero : l[n]? = some 0)
    (hfirst : ∀ k, k < n → l[k]? ≠ some 0) : cstring l = .ok (l.take n) := by
  induction l generalizing n with
  | nil => simp at hzero
  | cons b rest ih =>
    cases n with
    | zero =>
      simp only [List.getElem?_cons_zero, Option.some.injEq] at hzero
      simp [cstring, hzero]
    | succ m =>
      have hb : b ≠ 0 := by
        intro hb
        have h0 : (b :: rest)[0]? = some 0 := by simp [hb]
        exact hfirst 0 (by omega) h0
      have hz2 : rest[m]? = some 0 := by simpa using hzero
      have hf2 : ∀ k, k < m → rest[k]? ≠ some 0 := by
        intro k hk
        have := hfirst (k + 1) (by omega)
        simpa using this
      have hrest := ih m hz2 hf2
      simp only [cstring, hb, if_false, hrest, List.take_succ_cons]
      rfl

theorem first_zero_exists (l : List Byte) (h : (0 : Byte) ∈ l) :
    ∃ n : Nat, l[n]? = some 0 ∧ ∀ k : Nat, k < n → l[k]? ≠ some 0 := by
  induction l with
  | nil => simp at h
  | cons b rest ih =>
    by_cases hb : b = 0
    · exact ⟨0, by simp [hb], fun k hk => by omega⟩
    · have hmem : (0 : Byte) ∈ rest := by
        rcases List.mem_cons.mp h with h0 | h0
        · exact absurd h0.symm hb
        · exact h0
      obtain ⟨n, hn, hfirst⟩ := ih hmem
      refine ⟨n + 1, by simpa using hn, ?_⟩
      intro k hk
      cases k with
      | zero => simpa using hb
      | succ j => simpa using hfirst j (by omega)

theorem get_profile_username_first_zero (s : NFSU2SaveFile) (z : Nat) (hz : 0xD225 ≤ z)
    (hzero : s.buffer[z]? = some 0)
    (hfirst : ∀ k, 0xD225 ≤ k → k < z → s.buffer[k]? ≠ some 0) :
    s.get_profile_username = .ok ((s.buffer.drop 0xD225).take (z - 0xD225)) := by
  unfold get_profile_username
  apply cstring_first_zero
  · rw [List.getElem?_drop]
    have : 0xD225 + (z - 0xD225) = z := by omega
    rw [this]
    exact hzero
  · intro k hk
    rw [List.getElem?_drop]
    exact hfirst _ (by omega) (by omega)

theorem username_props (s : NFSU2SaveFile) (z : Nat) (hz : 0xD225 ≤ z)
    (hzero : s.buffer[z]? = some 0)
    (hfirst : ∀ k, 0xD225 ≤ k → k < z → s.buffer[k]? ≠ some 0) :
    (0 : Byte) ∉ (s.buffer.drop 0xD225).take (z - 0xD225) ∧
    ((s.buffer.drop 0xD225).take (z - 0xD225)).length = z - 0xD225 := by
  have hlt : z < s.buffer.length := by
    by_contra hcon
    rw [List.getElem?_eq_none (by omega)] at hzero
    cases hzero
  refine ⟨?_, ?_⟩
  · intro hmem
    obtain ⟨k, hk⟩ := List.mem_iff_getElem?.mp hmem
    rw [getElem?_take_drop] at hk
    by_cases hkz : k < z - 0xD225
    · rw [if_pos hkz] at hk
      exact hfirst _ (by omega) (by omega) hk
    · rw [if_neg hkz] at hk
      cases hk
  · simp only [List.length_take, List.length_drop]
    omega

theorem username_until_first_zero (s : NFSU2SaveFile)
    (hzero : ∃ k, 0xD225 ≤ k ∧ s.buffer[k]? = some 0) :
    ∃ z name, 0xD225 ≤ z ∧ s.buffer[z]? = some 0 ∧
      (∀ k, 0xD225 ≤ k → k < z → s.buffer[k]? ≠ some 0) ∧
      s.get_profile_username = .ok name ∧
      name = (s.buffer.drop 0xD225).take (z - 0xD225) ∧
      (∀ j, j < z - 0xD225 → name[j]? = s.buffer[0xD225 + j]?) ∧
      (0 : Byte) ∉ name ∧ name.length = z - 0xD225 ∧
      (s.buffer[0xD225]? = some 0 → name = []) := by
  obtain ⟨n, hn, hfirst⟩ := first_zero_exists (s.buffer.drop 0xD225)
    ((mem_drop_iff s.buffer 0xD225 0).mpr hzero)
  rw [List.getElem?_drop] at hn
  have hfirst2 : ∀ k, 0xD225 ≤ k → k < 0xD225 + n → s.buffer[k]? ≠ some 0 := by
    intro k h1 h2
    have := hfirst (k - 0xD225) (by omega)
    rw [List.getElem?_drop] at this
    have hk : 0xD225 + (k - 0xD225) = k := by omega
    rw [hk] at this
    exact this
  obtain ⟨hno, hlen⟩ := username_props s (0xD225 + n) (by omega) hn hfirst2
  refine ⟨0xD225 + n, _, by omega, hn, hfirst2,
    get_profile_username_first_zero s (0xD225 + n) (by omega) hn hfirst2, rfl, ?_, hno, hlen, ?_⟩
  · intro j hj
    rw [getElem?_take_drop, if_pos hj]
  · intro h0
    have hn0 : n = 0 := by
      by_contra hne
      exact hfirst2 0xD225 (by omega) (by omega) h0
    subst hn0
    simp

/-- C15: for every buffer that holds a zero byte at some offset from `0xD225`
on, with `z` the position of the first such byte, `get_profile_username()`
returns exactly the bytes at offsets `0xD225 .. z - 1`: no byte of the result
is zero, its length is `z - 0xD225`, and it is empty when the byte at `0xD225`
is zero. -/
theorem C15_username_until_first_zero (s : NFSU2SaveFile)
    (hzero : ∃ k, 0xD225 ≤ k ∧ s.buffer[k]? = some 0) :
    ∃ z name, 0xD225 ≤ z ∧ s.buffer[z]? = some 0 ∧
      (∀ k, 0xD225 ≤ k → k < z → s.buffer[k]? ≠ some 0) ∧
      s.get_profile_username = .ok name ∧
      name = (s.buffer.drop 0xD225).take (z - 0xD225) ∧
      (∀ j, j < z - 0xD225 → name[j]? = s.buffer[0xD225 + j]?) ∧
      (0 : Byte) ∉ name ∧ name.length = z - 0xD225 ∧
      (s.buffer[0xD225]? = some 0 → name = []) :=
  username_until_first_zero s hzero

theorem namedFile_getElem? (k : Nat) (h6 : 6 ≤ k) (hk : k < 0xE000) :
    namedFile[k]? =
      if k = 0xD226 then some 0x42 else if k = 0xD225 then some 0x41 else some 0 := by
  unfold namedFile
  rw [List.getElem?_set, List.getElem?_set, sampleFile_zero k h6 hk]
  simp only [List.length_set, sampleFile_length]
  by_cases h3 : 0xD226 = k
  · subst h3; simp
  · have h3b : ¬ (k = 0xD226) := fun h => h3 h.symm
    rw [if_neg h3, if_neg h3b]
    by_cases h1 : 0xD225 = k
    · subst h1; simp
    · have h1b : ¬ (k = 0xD225) := fun h => h1 h.symm
      rw [if_neg h1, if_neg h1b]

theorem namedSave_zero : ∃ k, 0xD225 ≤ k ∧ namedSave.buffer[k]? = some 0 := by
  refine ⟨0xD227, by decide, ?_⟩
  show namedFile[0xD227]? = some 0
  rw [namedFile_getElem? _ (by decide) (by decide)]
  decide

theorem namedSave_username : namedSave.get_profile_username = .ok [0x41, 0x42] := by
  have hz : namedSave.buffer[0xD227]? = some 0 := by
    show namedFile[0xD227]? = some 0
    rw [namedFile_getElem? _ (by decide) (by decide)]
    decide
  have hfirst : ∀ k, 0xD225 ≤ k → k < 0xD227 → namedSave.buffer[k]? ≠ some 0 := by
    intro k h1 h2
    show namedFile[k]? ≠ some 0
    rw [namedFile_getElem? k (by omega) (by omega)]
    have : k = 0xD225 ∨ k = 0xD226 := by omega
    rcases this with rfl | rfl <;> decide
  rw [get_profile_username_first_zero namedSave 0xD227 (by decide) hz hfirst]
  have := (take_drop_eq_iff namedSave.buffer 0xD225 [0x41, 0x42]).mpr (by
    intro k hk
    show namedFile[0xD225 + k]? = _
    rw [namedFile_getElem? _ (by omega) (by simp at hk; omega)]
    have : k = 0 ∨ k = 1 := by simp at hk; omega
    rcases this with rfl | rfl <;> decide)
  exact congrArg Except.ok this

/-- Witness of C15 on a file whose profile name is "AB". -/
theorem C15_username_until_first_zero_witness :
    namedSave.get_profile_username = .ok [0x41, 0x42] ∧
    ∃ z name, 0xD225 ≤ z ∧ namedSave.buffer[z]? = some 0 ∧
      (∀ k, 0xD225 ≤ k → k < z → namedSave.buffer[k]? ≠ some 0) ∧
      namedSave.get_profile_username = .ok name ∧
      name = (namedSave.buffer.drop 0xD225).take (z - 0xD225) ∧
      (∀ j, j < z - 0xD225 → name[j]? = namedSave.buffer[0xD225 + j]?) ∧
      (0 : Byte) ∉ name ∧ name.length = z - 0xD225 ∧
      (namedSave.buffer[0xD225]? = some 0 → name = []) :=
  ⟨namedSave_username, C15_username_until_first_zero namedSave namedSave_zero⟩

/-! ## Independence of the fields -/

theorem save_ext (a b : NFSU2SaveFile) (hf : a.filename = b.filename) (hs : a.size = b.size)
    (hb : ∀ k : Nat, a.buffer[k]? = b.buffer[k]?) : a = b := by
  cases a with
  | mk fa sa ba =>
    cases b with
    | mk fb sb bb =>
      simp only at hf hs hb
      have hbuf : ba = bb := List.ext_getElem? hb
      rw [hf, hs, hbuf]

theorem change_car_performance_total (s : NFSU2SaveFile) (index : Int) (mode : CAR_PERFORMACE)
    (hcover : 0x5AEC + 5 * 0x7F2 ≤ s.buffer.length) :
    ∃ out, s.change_car_performance index mode = .ok out ∧
      out.filename = s.filename ∧ out.size = s.size ∧
      out.buffer.length = s.buffer.length ∧
      ∀ k : Nat, out.buffer[k]? = if inBlock index k then some mode.toByte else s.buffer[k]? := by
  by_cases hbad : index < 0 ∨ 5 ≤ index
  · refine ⟨s, change_car_performance_bad_index s index mode hbad, rfl, rfl, rfl, ?_⟩
    intro k
    have : ¬ inBlock index k := by
      unfold inBlock
      omega
    rw [if_neg this]
  · obtain ⟨i, rfl⟩ : ∃ i : Nat, index = (i : Int) := ⟨index.toNat, by omega⟩
    obtain ⟨out, hout, hf, hs, hl, hget⟩ :=
      change_car_performance_spec s i mode (by omega) (by omega)
    refine ⟨out, hout, hf, hs, hl, ?_⟩
    intro k
    rw [hget k]
    by_cases hk : 0x5AEC + i * 0x7F2 + 0x94 ≤ k ∧ k < 0x5AEC + i * 0x7F2 + 0x94 + 0x44
    · have : inBlock (i : Int) k := by
        unfold inBlock
        rw [Int.toNat_ofNat]
        omega
      rw [if_pos hk, if_pos this]
    · have : ¬ inBlock (i : Int) k := by
        unfold inBlock
        rw [Int.toNat_ofNat]
        omega
      rw [if_neg hk, if_neg this]

theorem inBlock_range (index : Int) (k : Nat) (h : inBlock index k) :
    0x5AEC + 0x94 ≤ k ∧ k < 0x5AEC + 5 * 0x7F2 := by
  unfold inBlock at h
  omega

theorem set_money_total (s : NFSU2SaveFile) (v : Int) (hcover : 0xA16E ≤ s.buffer.length) :
    ∃ out, s.set_money v = .ok out ∧ out.filename = s.filename ∧ out.size = s.size ∧
      out.buffer.length = s.buffer.length ∧
      ∀ k : Nat, out.buffer[k]? =
        if inMoney k then some (int32_byte v (k - 0xA16A)) else s.buffer[k]? := by
  obtain ⟨out, hout, hf, hs, hl, hw, hframe, _⟩ := set_money_spec s v hcover
  refine ⟨out, hout, hf, hs, hl, ?_⟩
  intro k
  by_cases hk : inMoney k
  · rw [if_pos hk]
    unfold inMoney at hk
    have := hw (k - 0xA16A) (by omega)
    have hk2 : 0xA16A + (k - 0xA16A) = k := by omega
    rw [hk2] at this
    exact this
  · rw [if_neg hk]
    exact hframe k hk

theorem slotUsed_congr (b1 b2 : List Byte) (i : Nat)
    (h0 : b2[slotBase i]? = b1[slotBase i]?) (h1 : b2[slotBase i + 1]? = b1[slotBase i + 1]?) :
    slotUsed b2 i ↔ slotUsed b1 i := by
  unfold slotUsed
  rw [h0, h1]

theorem car_slots_used_congr (s t : NFSU2SaveFile)
    (hcover : 0x5AEC + 5 * 0x7F2 ≤ s.buffer.length)
    (hlen : t.buffer.length = s.buffer.length)
    (h : ∀ k : Nat, (∀ index, ¬ inBlock index k) → ¬ inMoney k → t.buffer[k]? = s.buffer[k]?) :
    t.car_slots_used = s.car_slots_used := by
  have hmarker : ∀ i d : Nat, i < 5 → d < 2 →
      t.buffer[slotBase i + d]? = s.buffer[slotBase i + d]? := by
    intro i d hi hd
    apply h
    · intro index hin
      unfold inBlock at hin
      unfold slotBase at hin
      obtain ⟨h0, h5, hlo, hhi⟩ := hin
      obtain ⟨j, rfl⟩ : ∃ j : Nat, index = (j : Int) := ⟨index.toNat, by omega⟩
      rw [Int.toNat_ofNat] at hlo hhi
      have hj : j < 5 := by omega
      interval_cases i <;> interval_cases j <;> omega
    · unfold inMoney slotBase
      omega
  have hu : ∀ i, i < 5 → (slotUsed t.buffer i ↔ slotUsed s.buffer i) := fun i hi =>
    slotUsed_congr s.buffer t.buffer i (hmarker i 0 hi (by decide)) (hmarker i 1 hi (by decide))
  rw [car_slots_used_eq s (by simp only [slotBase]; omega),
    car_slots_used_eq t (by simp only [slotBase]; omega)]
  simp only [hu 0 (by decide), hu 1 (by decide), hu 2 (by decide), hu 3 (by decide),
    hu 4 (by decide)]

theorem get_profile_username_congr (s t : NFSU2SaveFile)
    (h : ∀ k : Nat, 0xD225 ≤ k → t.buffer[k]? = s.buffer[k]?) :
    t.get_profile_username = s.get_profile_username := by
  have hdrop : t.buffer.drop 0xD225 = s.buffer.drop 0xD225 := by
    apply List.ext_getElem?
    intro k
    rw [List.getElem?_drop, List.getElem?_drop]
    exact h _ (by omega)
  unfold get_profile_username
  rw [hdrop]

theorem set_money_change_commute (s : NFSU2SaveFile) (v : Int) (index : Int)
    (mode : CAR_PERFORMACE) (hcover : 0xA16E ≤ s.buffer.length) :
    (s.set_money v >>= fun a => a.change_car_performance index mode) =
      (s.change_car_performance index mode >>= fun a => a.set_money v) := by
  obtain ⟨sm, hsm, hf1, hs1, hl1, hg1⟩ := set_money_total s v hcover
  obtain ⟨sc, hsc, hf2, hs2, hl2, hg2⟩ := change_car_performance_total s index mode (by omega)
  obtain ⟨x, hx, hf3, hs3, _, hg3⟩ :=
    change_car_performance_total sm index mode (by rw [hl1]; omega)
  obtain ⟨y, hy, hf4, hs4, _, hg4⟩ := set_money_total sc v (by rw [hl2]; omega)
  rw [hsm, hsc]
  show sm.change_car_performance index mode = sc.set_money v
  rw [hx, hy]
  congr 1
  apply save_ext
  · rw [hf3, hf1, hf4, hf2]
  · rw [hs3, hs1, hs4, hs2]
  · intro k
    rw [hg3 k, hg1 k, hg4 k, hg2 k]
    by_cases hb : inBlock index k
    · have hr := inBlock_range index k hb
      have hm : ¬ inMoney k := by unfold inMoney; omega
      rw [if_pos hb, if_neg hm, if_pos hb]
    · rw [if_neg hb, if_neg hb]

/-- C16: the fields are independent.  On every buffer that covers the money
field, `set_money(v)` changes no byte outside `0xA16A..0xA16D`, hence leaves
`car_slots_used()`, the performance block of every slot and
`get_profile_username()` as they were; `change_car_performance(index, mode)`
leaves `get_money()`, `car_slots_used()` and `get_profile_username()` as they
were; and the two calls give the same record in either order. -/
theorem C16_fields_independent (s : NFSU2SaveFile) (v : Int) (index : Int)
    (mode : CAR_PERFORMACE) (hcover : 0xA16E ≤ s.buffer.length) :
    ∃ sm sc, s.set_money v = .ok sm ∧ s.change_car_performance index mode = .ok sc ∧
      (∀ k : Nat, ¬ (0xA16A ≤ k ∧ k < 0xA16E) → sm.buffer[k]? = s.buffer[k]?) ∧
      sm.buffer.length = s.buffer.length ∧
      sm.car_slots_used = s.car_slots_used ∧
      (∀ i k : Nat, i < 5 → 0x5AEC + i * 0x7F2 + 0x94 ≤ k →
        k < 0x5AEC + i * 0x7F2 + 0x94 + 0x44 → sm.buffer[k]? = s.buffer[k]?) ∧
      sm.get_profile_username = s.get_profile_username ∧
      sc.get_money = s.get_money ∧
      sc.car_slots_used = s.car_slots_used ∧
      sc.get_profile_username = s.get_profile_username ∧
      (s.set_money v >>= fun a => a.change_car_performance index mode) =
        (s.change_car_performance index mode >>= fun a => a.set_money v) := by
  obtain ⟨sm, hsm, _, _, hl1, hg1⟩ := set_money_total s v hcover
  obtain ⟨sc, hsc, _, _, hl2, hg2⟩ := change_car_performance_total s index mode (by omega)
  have hframe1 : ∀ k : Nat, ¬ (0xA16A ≤ k ∧ k < 0xA16E) → sm.buffer[k]? = s.buffer[k]? := by
    intro k hk
    have hm : ¬ inMoney k := hk
    rw [hg1 k, if_neg hm]
  have hframe2 : ∀ k : Nat, ¬ inBlock index k → sc.buffer[k]? = s.buffer[k]? := by
    intro k hk
    rw [hg2 k, if_neg hk]
  refine ⟨sm, sc, hsm, hsc, hframe1, hl1, ?_, ?_, ?_, ?_, ?_, ?_,
    set_money_change_commute s v index mode hcover⟩
  · exact car_slots_used_congr s sm (by omega) hl1 (fun k _ hm => hframe1 k hm)
  · intro i k hi h1 h2
    exact hframe1 k (by omega)
  · exact get_profile_username_congr s sm (fun k hk => hframe1 k (by omega))
  · apply get_money_congr s sc hl2
    intro k h1 h2
    apply hframe2
    intro hb
    have := inBlock_range index k hb
    omega
  · exact car_slots_used_congr s sc (by omega) hl2 (fun k hb _ => hframe2 k (hb index))
  · apply get_profile_username_congr s sc
    intro k hk
    apply hframe2
    intro hb
    have := inBlock_range index k hb
    omega

/-- Witness of C16 on the sample record: money -7 and slot 3 maxed. -/
theorem C16_fields_independent_witness :
    ∃ sm sc, sampleSave.set_money (-7) = .ok sm ∧
      sampleSave.change_car_performance 3 .MAX_OUT = .ok sc ∧
      (∀ k : Nat, ¬ (0xA16A ≤ k ∧ k < 0xA16E) → sm.buffer[k]? = sampleSave.buffer[k]?) ∧
      sm.buffer.length = sampleSave.buffer.length ∧
      sm.car_slots_used = sampleSave.car_slots_used ∧
      (∀ i k : Nat, i < 5 → 0x5AEC + i * 0x7F2 + 0x94 ≤ k →
        k < 0x5AEC + i * 0x7F2 + 0x94 + 0x44 → sm.buffer[k]? = sampleSave.buffer[k]?) ∧
      sm.get_profile_username = sampleSave.get_profile_username ∧
      sc.get_money = sampleSave.get_money ∧
      sc.car_slots_used = sampleSave.car_slots_used ∧
      sc.get_profile_username = sampleSave.get_profile_username ∧
      (sampleSave.set_money (-7) >>= fun a => a.change_car_performance 3 .MAX_OUT) =
        (sampleSave.change_car_performance 3 .MAX_OUT >>= fun a => a.set_money (-7)) :=
  C16_fields_independent sampleSave (-7) 3 .MAX_OUT sampleSave_cover

/-! ## Bounds and the algebra of the performance calls -/

/-- C17: under the precondition `size >= 0xA16E`, on a record whose buffer has
`size` bytes, `get_money`, `set_money`, `car_slots_used` and
`change_car_performance` (any index, either mode) return normally: no access
falls outside `[0, size)`.  The offsets stay inside because the five slots end
at `0x5AEC + 5 * 0x7F2 = 0x82A6`, each performance block `[0x94, 0x94 + 0x44)`
lies inside its own slot of `0x7F2` bytes, every block ends at or before
`0x82A6`, and the money field ends at `0xA16E`. -/
theorem C17_accesses_within_size (s : NFSU2SaveFile) (hsize : s.buffer.length = s.size)
    (hpre : 0xA16E ≤ s.size) :
    (∃ money, s.get_money = .ok money) ∧
    (∀ v, ∃ out, s.set_money v = .ok out ∧ out.buffer.length = s.size) ∧
    (∃ n, s.car_slots_used = .ok n) ∧
    (∀ index mode, ∃ out, s.change_car_performance index mode = .ok out ∧
      out.buffer.length = s.size) ∧
    START_INDEX + NUM_CAR_SLOTS * SIZE_CAR_SLOT = 0x82A6 ∧
    0x94 + TOTAL_PARTS ≤ SIZE_CAR_SLOT ∧
    (∀ i, i < NUM_CAR_SLOTS →
      START_INDEX + i * SIZE_CAR_SLOT + 2 ≤ 0x82A6 ∧
      START_INDEX + i * SIZE_CAR_SLOT + 0x94 + TOTAL_PARTS ≤ 0x82A6) ∧
    0x82A6 ≤ 0xA16A ∧ 0xA16A + 4 = 0xA16E ∧ 0xA16E ≤ s.size := by
  have hcover : 0xA16E ≤ s.buffer.length := by omega
  refine ⟨⟨_, get_money_eq s hcover⟩, ?_, ?_, ?_, by decide, by decide, ?_, by decide,
    by decide, hpre⟩
  · intro v
    obtain ⟨out, hout, _, _, hl, _⟩ := set_money_total s v hcover
    exact ⟨out, hout, by rw [hl, hsize]⟩
  · obtain ⟨n, hn, _⟩ := car_slots_used_ok s (by simp only [slotBase]; omega)
    exact ⟨n, hn⟩
  · intro index mode
    obtain ⟨out, hout, _, _, hl, _⟩ := change_car_performance_total s index mode (by omega)
    exact ⟨out, hout, by rw [hl, hsize]⟩
  · intro i hi
    simp only [START_INDEX, SIZE_CAR_SLOT, TOTAL_PARTS, NUM_CAR_SLOTS] at *
    omega

/-- Witness of C17 on the sample record. -/
theorem C17_accesses_within_size_witness :
    (∃ money, sampleSave.get_money = .ok money) ∧
    (∀ v, ∃ out, sampleSave.set_money v = .ok out ∧ out.buffer.length = sampleSave.size) ∧
    (∃ n, sampleSave.car_slots_used = .ok n) ∧
    (∀ index mode, ∃ out, sampleSave.change_car_performance index mode = .ok out ∧
      out.buffer.length = sampleSave.size) ∧
    START_INDEX + NUM_CAR_SLOTS * SIZE_CAR_SLOT = 0x82A6 ∧
    0x94 + TOTAL_PARTS ≤ SIZE_CAR_SLOT ∧
    (∀ i, i < NUM_CAR_SLOTS →
      START_INDEX + i * SIZE_CAR_SLOT + 2 ≤ 0x82A6 ∧
      START_INDEX + i * SIZE_CAR_SLOT + 0x94 + TOTAL_PARTS ≤ 0x82A6) ∧
    0x82A6 ≤ 0xA16A ∧ 0xA16A + 4 = 0xA16E ∧ 0xA16E ≤ sampleSave.size :=
  C17_accesses_within_size sampleSave sampleFile_length (by decide)

theorem change_twice (s : NFSU2SaveFile) (i j : Int) (m m2 : CAR_PERFORMACE)
    (hcover : 0x5AEC + 5 * 0x7F2 ≤ s.buffer.length) :
    ∃ a b, s.change_car_performance i m = .ok a ∧ a.change_car_performance j m2 = .ok b ∧
      b.filename = s.filename ∧ b.size = s.size ∧
      ∀ k : Nat, b.buffer[k]? =
        if inBlock j k then some m2.toByte
        else if inBlock i k then some m.toByte else s.buffer[k]? := by
  obtain ⟨a, ha, hf1, hs1, hl1, hg1⟩ := change_car_performance_total s i m hcover
  obtain ⟨b, hb, hf2, hs2, _, hg2⟩ := change_car_performance_total a j m2 (by rw [hl1]; exact hcover)
  refine ⟨a, b, ha, hb, by rw [hf2, hf1], by rw [hs2, hs1], ?_⟩
  intro k
  rw [hg2 k, hg1 k]

theorem inBlock_disjoint (i j : Int) (k : Nat) (hne : i ≠ j) (hi : inBlock i k) :
    ¬ inBlock j k := by
  intro hj
  unfold inBlock at hi hj
  obtain ⟨a, rfl⟩ : ∃ a : Nat, i = (a : Int) := ⟨i.toNat, by omega⟩
  obtain ⟨b, rfl⟩ : ∃ b : Nat, j = (b : Int) := ⟨j.toNat, by omega⟩
  rw [Int.toNat_ofNat] at hi hj
  have ha : a < 5 := by omega
  have hb : b < 5 := by omega
  have hab : a ≠ b := fun h => hne (by rw [h])
  interval_cases a <;> interval_cases b <;> omega

/-- C18: on every buffer covering the five slots and for all slot indices
`i`, `j` (in `[0,5)`, and also outside it, where a call does nothing) and modes
`m`, `m2`: applying `(i, m)` twice gives the same record as applying it once;
applying `(i, m)` and then `(i, m2)` gives the same record as applying
`(i, m2)` alone; and for `i != j`, applying `(i, m)` then `(j, m2)` gives the
same record as applying `(j, m2)` then `(i, m)`.  All the calls return
normally. -/
theorem C18_change_car_performance_algebra (s : NFSU2SaveFile) (i j : Int)
    (m m2 : CAR_PERFORMACE) (hcover : 0x5AEC + 5 * 0x7F2 ≤ s.buffer.length) :
    (∃ once, s.change_car_performance i m = .ok once ∧
      once.change_car_performance i m = .ok once) ∧
    (∃ first last, s.change_car_performance i m = .ok first ∧
      s.change_car_performance i m2 = .ok last ∧
      first.change_car_performance i m2 = .ok last) ∧
    (i ≠ j → ∃ both,
      (s.change_car_performance i m >>= fun a => a.change_car_performance j m2) = .ok both ∧
      (s.change_car_performance j m2 >>= fun a => a.change_car_performance i m) = .ok both) := by
  refine ⟨?_, ?_, ?_⟩
  · obtain ⟨a, b, ha, hb, hf, hs, hg⟩ := change_twice s i i m m hcover
    obtain ⟨a2, ha2, hf2, hs2, _, hg2⟩ := change_car_performance_total s i m hcover
    rw [ha] at ha2
    cases ha2
    have hba : b = a := by
      apply save_ext
      · rw [hf, hf2]
      · rw [hs, hs2]
      · intro k
        rw [hg k, hg2 k]
        by_cases hk : inBlock i k
        · rw [if_pos hk, if_pos hk]
        · rw [if_neg hk, if_neg hk]
    rw [hba] at hb
    exact ⟨a, ha, hb⟩
  · obtain ⟨a, b, ha, hb, hf, hs, hg⟩ := change_twice s i i m m2 hcover
    obtain ⟨c, hc, hf2, hs2, _, hg2⟩ := change_car_performance_total s i m2 hcover
    have hbc : b = c := by
      apply save_ext
      · rw [hf, hf2]
      · rw [hs, hs2]
      · intro k
        rw [hg k, hg2 k]
        by_cases hk : inBlock i k
        · rw [if_pos hk, if_pos hk]
        · rw [if_neg hk, if_neg hk, if_neg hk]
    rw [hbc] at hb
    exact ⟨a, c, ha, hc, hb⟩
  · intro hne
    obtain ⟨a, b, ha, hb, hf, hs, hg⟩ := change_twice s i j m m2 hcover
    obtain ⟨a2, b2, ha2, hb2, hf2, hs2, hg2⟩ := change_twice s j i m2 m hcover
    have hbb : b2 = b := by
      apply save_ext
      · rw [hf, hf2]
      · rw [hs, hs2]
      · intro k
        rw [hg k, hg2 k]
        by_cases hki : inBlock i k
        · have hkj := inBlock_disjoint _ _ k hne hki
          rw [if_pos hki, if_neg hkj, if_pos hki]
        · rw [if_neg hki, if_neg hki]
    refine ⟨b, ?_, ?_⟩
    · rw [ha]
      exact hb
    · rw [ha2]
      show a2.change_car_performance i m = .ok b
      rw [hb2, hbb]

/-- Witness of C18 on the sample record with slots 1 and 4. -/
theorem C18_change_car_performance_algebra_witness :
    (∃ once, sampleSave.change_car_performance 1 .MAX_OUT = .ok once ∧
      once.change_car_performance 1 .MAX_OUT = .ok once) ∧
    (∃ first last, sampleSave.change_car_performance 1 .MAX_OUT = .ok first ∧
      sampleSave.change_car_performance 1 .NILL_OUT = .ok last ∧
      first.change_car_performance 1 .NILL_OUT = .ok last) ∧
    ((1 : Int) ≠ 4 → ∃ both,
      (sampleSave.change_car_performance 1 .MAX_OUT >>= fun a =>
        a.change_car_performance 4 .NILL_OUT) = .ok both ∧
      (sampleSave.change_car_performance 4 .NILL_OUT >>= fun a =>
        a.change_car_performance 1 .MAX_OUT) = .ok both) :=
  C18_change_car_performance_algebra sampleSave 1 4 .MAX_OUT .NILL_OUT
    (by show _ ≤ sampleFile.length; rw [sampleFile_length]; decide)

end NFSU2SaveE
